import Mathlib

/-!
# secret-santa: the validator, the resident index and the assignment engine

A shallow embedding of `secret-santa.go` and the properties proved of it.

* Go structs are Lean structures with the same field names; the zero value of a
  struct is its `default`.
* A Go `map[string]Resident` is an association list `GoMap` (one entry per key);
  `mapInsert`, `mapContains`, `mapIndex`, `mapDelete` and `List.length` stand for
  `m[k] = v`, `_, exists := m[k]`, `m[k]`, `delete(m, k)` and `len(m)`.
* `len(s) <= 0` and `len(s) > 0` on a string are `s.length ≤ 0` and `s.length > 0`.
* `globalConfig.Rules.AllowSameResidenceExchange` is the explicit argument `allow`.
* The random choices are explicit.  One attempt receives a `Shuffler`: call number
  `k` of `randomSequenceFromMapValues` inside the attempt, made on the map `m`,
  returns `shuffle k m`; `generateSecretSantaAssignments` receives one shuffler
  per attempt.  `randomSequenceFromMapValues` itself is embedded with the order in
  which the entries are visited and the keys drawn by `rand.Int` as arguments.
* Errors built with `errors.New` and `fmt.Errorf` are `Except` errors; the
  messages of the validator, which embed a JSON dump of the offending record,
  are the constructors of `ValidationError` carrying that record.
* Each Go loop is a recursive function named after what it ranges over; the
  variables `from` and `to` are written `from_` and `to_`.  Calls of
  `printlnDebug` have no effect on the results and are left out.
-/

set_option linter.dupNamespace false

namespace SecretSanta

/-! ## Data model (source lines 410-436) -/

structure Person where
  Id : String
  ActorId : String
  FirstName : String
  LastName : String
  PublicName : String
  Email : String
deriving DecidableEq, Inhabited

structure Address where
  Address : String
  City : String
  State : String
  Zipcode : String
  Residents : List Person
deriving DecidableEq, Inhabited

structure Resident where
  Person : Person
  Address : SecretSanta.Address
deriving DecidableEq, Inhabited

structure SecretSantaAssignment where
  From : Resident
  To : Resident
  Actor : Resident
deriving DecidableEq, Inhabited

structure randElement (T : Type) where
  Order : Nat
  Element : T

/-! ## Go maps -/

/-- A Go `map[string]Resident`: its entries, one per key. -/
abbrev GoMap := List (String × Resident)

/-- The key test `_, exists := m[k]`. -/
def mapContains (m : GoMap) (k : String) : Bool :=
  m.any (fun e => decide (e.1 = k))

/-- The assignment `m[k] = v`: overwrite the entry of `k`, or add one. -/
def mapInsert : GoMap → String → Resident → GoMap
  | [], k, v => [(k, v)]
  | e :: rest, k, v => if e.1 = k then (k, v) :: rest else e :: mapInsert rest k v

/-- The read `m[k]`: the zero value when `k` has no entry. -/
def mapIndex : GoMap → String → Resident
  | [], _ => default
  | e :: rest, k => if e.1 = k then e.2 else mapIndex rest k

/-- The statement `delete(m, k)`. -/
def mapDelete (m : GoMap) (k : String) : GoMap :=
  m.filter (fun e => !decide (e.1 = k))

/-- The values held by a map. -/
def mapValues (m : GoMap) : List Resident :=
  m.map Prod.snd

/-- The keys of a map. -/
def mapKeys (m : GoMap) : List String :=
  m.map Prod.fst

/-! ## Resident index (source lines 171-183) -/

/-- The inner loop of `createResidentMap`: the residents of one address. -/
def addResidents (address : Address) : List Person → GoMap → GoMap
  | [], recipients => recipients
  | resident :: rest, recipients =>
      addResidents address rest
        (mapInsert recipients resident.Id { Person := resident, Address := address })

/-- The outer loop of `createResidentMap`. -/
def addAddresses : List Address → GoMap → GoMap
  | [], recipients => recipients
  | address :: rest, recipients =>
      addAddresses rest (addResidents address address.Residents recipients)

def createResidentMap (addresses : List Address) : GoMap :=
  addAddresses addresses []

/-! ## Validator (source lines 106-164) -/

/-- The failures of `validateData`, one constructor per `errors.New` of the source,
in source order, carrying the records the message prints. -/
inductive ValidationError where
  | missingAddress (address : Address)
  | missingCity (address : Address)
  | missingState (address : Address)
  | missingZipcode (address : Address)
  | missingId (address : Address) (person : Person)
  | idNotUnique (person : Person)
  | missingFirstName (address : Address) (person : Person)
  | missingLastName (address : Address) (person : Person)
  | missingPublicName (address : Address) (person : Person)
  | missingEmail (address : Address) (person : Person)
  | actorIdIsOwnId (person : Person)
  | actorIdUnknown (person : Person)
deriving DecidableEq

/-- The loop over `address.Residents` (source lines 126-161); `idMap` is the set of
ids seen so far, returned updated when no check fails. -/
def validateResidents (residentMap : GoMap) (address : Address) :
    List Person → List String → Except ValidationError (List String)
  | [], idMap => .ok idMap
  | person :: rest, idMap =>
      if person.Id.length ≤ 0 then .error (.missingId address person)
      else if person.Id ∈ idMap then .error (.idNotUnique person)
      else if person.FirstName.length ≤ 0 then .error (.missingFirstName address person)
      else if person.LastName.length ≤ 0 then .error (.missingLastName address person)
      else if person.PublicName.length ≤ 0 then .error (.missingPublicName address person)
      else if person.Email.length ≤ 0 then .error (.missingEmail address person)
      else if person.ActorId.length > 0 then
        if person.ActorId = person.Id then .error (.actorIdIsOwnId person)
        else if mapContains residentMap person.ActorId = false then
          .error (.actorIdUnknown person)
        else validateResidents residentMap address rest (person.Id :: idMap)
      else validateResidents residentMap address rest (person.Id :: idMap)

/-- The loop over `addresses` (source lines 111-162). -/
def validateAddresses (residentMap : GoMap) :
    List Address → List String → Except ValidationError Unit
  | [], _ => .ok ()
  | address :: rest, idMap =>
      if address.Address.length ≤ 0 then .error (.missingAddress address)
      else if address.City.length ≤ 0 then .error (.missingCity address)
      else if address.State.length ≤ 0 then .error (.missingState address)
      else if address.Zipcode.length ≤ 0 then .error (.missingZipcode address)
      else
        match validateResidents residentMap address address.Residents idMap with
        | .error e => .error e
        | .ok idMap1 => validateAddresses residentMap rest idMap1

def validateData (addresses : List Address) : Except ValidationError Unit :=
  validateAddresses (createResidentMap addresses) addresses []

/-! ## Shuffle (source lines 217-242) -/

/-- The call `sort.Slice(sequence, less)` with `less i j` the comparison
`sequence[i].Order > sequence[j].Order`: the slice sorted by descending `Order`,
elements of equal `Order` keeping their relative position.  This is the result
of the insertion sort that `sort.Slice` runs on a slice of at most 12 elements;
on a longer slice Go leaves the relative position of equal elements open. -/
def sortSlice {T : Type} (sequence : List (randElement T)) : List (randElement T) :=
  sequence.insertionSort (fun a b => a.Order ≥ b.Order)

/-- The function `randomSequenceFromMapValues`: `input` lists the entries in the
order the `range` loop visits them, `draws i` is the non-negative integer that
`rand.Int` returns for the `i`-th entry visited.  The slice starts as `len(input)` zero elements
(`make([]randElement[V], len(input))`), the drawn elements are appended to it,
and the result is read off the first `len(input)` positions after the sort. -/
def randomSequenceFromMapValues (input : GoMap) (draws : Nat → Nat) : List Resident :=
  let made : List (randElement Resident) :=
    List.replicate input.length { Order := 0, Element := default }
  let sequence := made ++
    List.zipWith (fun i e => ({ Order := draws i, Element := e.2 } : randElement Resident))
      (List.range input.length) input
  let sorted := sortSlice sequence
  (sorted.take input.length).map (fun e => e.Element)

/-! ## Assignment engine (source lines 185-215 and 244-304) -/

/-- The results of the calls of `randomSequenceFromMapValues` in one attempt. -/
abbrev Shuffler := Nat → GoMap → List Resident

/-- The assignment built at source lines 281-290. -/
def makeAssignment (residents : GoMap) (from_ to_ : Resident) : SecretSantaAssignment :=
  let assignment : SecretSantaAssignment := { From := from_, To := to_, Actor := from_ }
  if from_.Person.ActorId.length > 0 then
    { assignment with Actor := mapIndex residents from_.Person.ActorId }
  else assignment

/-- The loop over `recipientList` (source lines 264-296).  `none` is `success`
still false at the end; `some` carries `residentsCopy` and `assignments` as they
are at the `break`. -/
def recipientLoop (allow : Bool) (residents : GoMap) (from_ : Resident)
    (residentsCopy : GoMap) (assignments : List SecretSantaAssignment) :
    List Resident → Option (GoMap × List SecretSantaAssignment)
  | [] => none
  | to_ :: rest =>
      if from_.Person.Id = to_.Person.Id then
        recipientLoop allow residents from_ residentsCopy assignments rest
      else if mapContains residentsCopy to_.Person.Id = false then
        recipientLoop allow residents from_ residentsCopy assignments rest
      else if allow = false ∧ from_.Address.Address = to_.Address.Address then
        recipientLoop allow residents from_ residentsCopy assignments rest
      else
        some (mapDelete residentsCopy to_.Person.Id,
              assignments ++ [makeAssignment residents from_ to_])

/-- The loop over `residentSequence` (source lines 255-301); `k` counts the givers
already processed, so the shuffle of this giver is call number `k + 1`. -/
def giverLoop (allow : Bool) (residents : GoMap) (shuffle : Shuffler) :
    List Resident → Nat → GoMap → List SecretSantaAssignment →
    Except String (List SecretSantaAssignment)
  | [], _, _, assignments => .ok assignments
  | from_ :: rest, k, residentsCopy, assignments =>
      if residentsCopy.length = 0 then .ok assignments
      else
        match recipientLoop allow residents from_ residentsCopy assignments
            (shuffle (k + 1) residentsCopy) with
        | none => .error "Unable to find a pairing"
        | some (residentsCopy1, assignments1) =>
            giverLoop allow residents shuffle rest (k + 1) residentsCopy1 assignments1

def attemptSecretSantaAssignments (allow : Bool) (residents : GoMap) (shuffle : Shuffler) :
    Except String (List SecretSantaAssignment) :=
  let residentsCopy := residents
  let residentSequence := shuffle 0 residentsCopy
  giverLoop allow residents shuffle residentSequence 0 residentsCopy []

/-- The message returned at source line 208. -/
def messagePlain : String := "Could not assign secret santas.."

/-- The message returned at source line 210. -/
def messageHint : String :=
  "Could not assign secret santas. Try setting \"allow_same_residence_exchange\" to true."

/-- The loop `for run && count < 1000` (source lines 194-212); `run` is never
assigned and stays true.  `fuel` bounds the recursion; the loop leaves through a
`return` before `count` exceeds 1000, so 1000 is enough. -/
def generateLoop (allow : Bool) (recipients : GoMap) (shuffles : Nat → Shuffler) :
    Nat → Nat → Except String (List SecretSantaAssignment)
  | 0, _ => .ok []
  | fuel + 1, count =>
      if count < 1000 then
        match attemptSecretSantaAssignments allow recipients (shuffles count) with
        | .ok assignments => .ok assignments
        | .error _ =>
            if count + 1 = 1000 then
              if allow = false then .error messagePlain else .error messageHint
            else generateLoop allow recipients shuffles fuel (count + 1)
      else .ok []

def generateSecretSantaAssignments (allow : Bool) (addresses : List Address)
    (shuffles : Nat → Shuffler) : Except String (List SecretSantaAssignment) :=
  let recipients := createResidentMap addresses
  generateLoop allow recipients shuffles 1000 0

/-- Every entry of the map stores a resident under the id of the resident, as the
entries written by `createResidentMap` do. -/
def KeyedById (m : GoMap) : Prop :=
  ∀ e ∈ m, e.2.Person.Id = e.1

/-- The pairs (giver, receiver) of a run of the giver loop that starts at call
number `k` with working copy `residentsCopy`: each receiver is listed by the
shuffle of its giver, survives the three skip rules, and is deleted from the
working copy before the next giver. -/
def Picks (allow : Bool) (shuffle : Shuffler) : Nat → GoMap → List (Resident × Resident) → Prop
  | _, _, [] => True
  | k, residentsCopy, p :: rest =>
      p.2 ∈ shuffle (k + 1) residentsCopy ∧
      p.1.Person.Id ≠ p.2.Person.Id ∧
      mapContains residentsCopy p.2.Person.Id = true ∧
      (allow = false → p.1.Address.Address ≠ p.2.Address.Address) ∧
      Picks allow shuffle (k + 1) (mapDelete residentsCopy p.2.Person.Id) rest

/-! ## The validity conditions in the words of the specification -/

/-- The persons of a dataset, address by address. -/
def allPersons (addresses : List Address) : List Person :=
  addresses.flatMap (fun a => a.Residents)

/-- The address has a non-empty address, city, state and zipcode. -/
def AddressOk (a : Address) : Prop :=
  a.Address ≠ "" ∧ a.City ≠ "" ∧ a.State ≠ "" ∧ a.Zipcode ≠ ""

/-- A valid dataset: every address has non-empty fields; every person has a
non-empty id, first name, last name, public name and email; person ids are
pairwise distinct across all addresses; every non-empty actor id differs from
the own id of the person and is the id of some person of the dataset. -/
def ValidData (addresses : List Address) : Prop :=
  (∀ a ∈ addresses, AddressOk a) ∧
  (∀ p ∈ allPersons addresses,
    p.Id ≠ "" ∧ p.FirstName ≠ "" ∧ p.LastName ≠ "" ∧ p.PublicName ≠ "" ∧ p.Email ≠ "") ∧
  ((allPersons addresses).map (fun p => p.Id)).Nodup ∧
  (∀ p ∈ allPersons addresses, p.ActorId ≠ "" →
    p.ActorId ≠ p.Id ∧ ∃ q ∈ allPersons addresses, q.Id = p.ActorId)

/-- The per-person checks of `validateResidents` other than uniqueness of the id,
against the index `residentMap`. -/
def PersonOk (residentMap : GoMap) (p : Person) : Prop :=
  p.Id ≠ "" ∧ p.FirstName ≠ "" ∧ p.LastName ≠ "" ∧ p.PublicName ≠ "" ∧ p.Email ≠ "" ∧
  (p.ActorId ≠ "" → p.ActorId ≠ p.Id ∧ mapContains residentMap p.ActorId = true)

/-! ## A planned attempt: every giver sends to the resident `shift` places further -/

/-- The receiver planned for the giver at position `i` of the order `order`: the
resident `shift` places further on, cyclically. -/
def rotated (order : List Resident) (shift i : Nat) : Resident :=
  order.getD ((i + shift) % order.length) default

/-- The shuffles of the planned attempt over the index `residents`: the giver
order is `order`, and the candidate order of the giver at position `k` is the
working copy with the planned receiver moved to the front.  On any other map the
shuffle returns the values as listed. -/
def rotationShuffle (residents : GoMap) (order : List Resident) (shift : Nat) : Shuffler
  | 0, m => if m = residents then order else mapValues m
  | k + 1, m =>
      if rotated order shift k ∈ mapValues m then
        rotated order shift k :: (mapValues m).erase (rotated order shift k)
      else mapValues m

/-- The residents of an index ordered by street address. -/
def byStreet (residents : GoMap) : List Resident :=
  (mapValues residents).insertionSort (fun a b => a.Address.Address ≤ b.Address.Address)

/-! ## Sample data -/

/-- The shuffler that returns the values of a map in the order the map lists them. -/
def listedOrder : Shuffler := fun _ m => mapValues m

def personA1 : Person := ⟨"a1", "", "Ann", "Ash", "Ann A.", "ann@example.org"⟩

def personA2 : Person := ⟨"a2", "", "Abe", "Ash", "Abe A.", "abe@example.org"⟩

def personB1 : Person := ⟨"b1", "a1", "Bea", "Birch", "Bea B.", "bea@example.org"⟩

/-- Address A with the residents a1 and a2. -/
def addressA : Address := ⟨"1 Ash Road", "Alba", "AL", "10001", [personA1, personA2]⟩

/-- Address A with the resident a1 only. -/
def addressA1 : Address := ⟨"1 Ash Road", "Alba", "AL", "10001", [personA1]⟩

/-- Address B with the resident b1, whose notifications go to a1. -/
def addressB : Address := ⟨"2 Birch Lane", "Bray", "BR", "20002", [personB1]⟩

/-- The assignments a1 → b1 and b1 → a1, the second one notified to a1. -/
def pairedA1B1 : List SecretSantaAssignment :=
  [ { From := ⟨personA1, addressA1⟩, To := ⟨personB1, addressB⟩, Actor := ⟨personA1, addressA1⟩ },
    { From := ⟨personB1, addressB⟩, To := ⟨personA1, addressA1⟩, Actor := ⟨personA1, addressA1⟩ } ]

/-! ## The resident index, the validator and the pairing step in the words of the claims -/

/-- The residents of a dataset, address by address: each person with the address
whose `Residents` lists it. -/
def allResidents (addresses : List Address) : List Resident :=
  addresses.flatMap (fun a => a.Residents.map (fun p => ({ Person := p, Address := a } : Resident)))

/-- The four checks of an address, in the order of source lines 112-123: each is
the failure it reports when violated. -/
def addressChecks (a : Address) : List (Option ValidationError) :=
  [ if a.Address = "" then some (.missingAddress a) else none,
    if a.City = "" then some (.missingCity a) else none,
    if a.State = "" then some (.missingState a) else none,
    if a.Zipcode = "" then some (.missingZipcode a) else none ]

/-- The eight checks of a person, in the order of source lines 127-159; `seen`
are the ids of the persons visited before. -/
def personChecks (residentMap : GoMap) (a : Address) (seen : List String) (p : Person) :
    List (Option ValidationError) :=
  [ if p.Id = "" then some (.missingId a p) else none,
    if p.Id ∈ seen then some (.idNotUnique p) else none,
    if p.FirstName = "" then some (.missingFirstName a p) else none,
    if p.LastName = "" then some (.missingLastName a p) else none,
    if p.PublicName = "" then some (.missingPublicName a p) else none,
    if p.Email = "" then some (.missingEmail a p) else none,
    if p.ActorId ≠ "" ∧ p.ActorId = p.Id then some (.actorIdIsOwnId p) else none,
    if p.ActorId ≠ "" ∧ mapContains residentMap p.ActorId = false then
      some (.actorIdUnknown p) else none ]

/-- The checks of the persons of one address, person by person. -/
def residentsChecks (residentMap : GoMap) (a : Address) :
    List String → List Person → List (Option ValidationError)
  | _, [] => []
  | seen, p :: rest =>
      personChecks residentMap a seen p ++ residentsChecks residentMap a (p.Id :: seen) rest

/-- All the checks of a dataset in the order of the traversal: address by address,
the four checks of the address and then the checks of each of its persons. -/
def datasetChecks (residentMap : GoMap) :
    List String → List Address → List (Option ValidationError)
  | _, [] => []
  | seen, a :: rest =>
      addressChecks a ++ residentsChecks residentMap a seen a.Residents ++
        datasetChecks residentMap ((a.Residents.map (fun p => p.Id)).reverse ++ seen) rest

/-- The first violated check of a dataset in the order of the traversal. -/
def firstViolation (addresses : List Address) : Option ValidationError :=
  (datasetChecks (createResidentMap addresses) [] addresses).findSome? id

/-- The candidate `to_` survives the three skip rules for the giver `from_`: it
is not the giver, its id is still a key of the working copy, and it does not
share the street address of the giver when the flag is false. -/
def survives (allow : Bool) (residentsCopy : GoMap) (from_ to_ : Resident) : Bool :=
  decide (from_.Person.Id ≠ to_.Person.Id) && mapContains residentsCopy to_.Person.Id &&
    !(decide (allow = false) && decide (from_.Address.Address = to_.Address.Address))

/-- The first candidate of the order that survives the skip rules. -/
def firstSurvivor (allow : Bool) (residentsCopy : GoMap) (from_ : Resident)
    (recipientList : List Resident) : Option Resident :=
  recipientList.find? (survives allow residentsCopy from_)

/-- The working copy after the listed receivers have been deleted from it. -/
def workingCopyAfter (residentsCopy : GoMap) (receivers : List Resident) : GoMap :=
  receivers.foldl (fun m t => mapDelete m t.Person.Id) residentsCopy

/-- The pairs (giver, receiver) of the givers served so far by a run of the giver
loop that starts at call number `k` with working copy `residentsCopy`: each
giver met a non-empty working copy and received the first candidate of its
shuffle that survives the skip rules. -/
def Served (allow : Bool) (shuffle : Shuffler) : Nat → GoMap → List (Resident × Resident) → Prop
  | _, _, [] => True
  | k, residentsCopy, p :: rest =>
      residentsCopy ≠ [] ∧
      firstSurvivor allow residentsCopy p.1 (shuffle (k + 1) residentsCopy) = some p.2 ∧
      Served allow shuffle (k + 1) (mapDelete residentsCopy p.2.Person.Id) rest

/-! ## More sample data -/

def personC1 : Person := ⟨"c1", "", "Cy", "Cedar", "Cy C.", "cy@example.org"⟩

/-- Address C with the resident c1. -/
def addressC : Address := ⟨"3 Cedar Way", "Crewe", "CR", "30003", [personC1]⟩

/-- An address with the street of address A in another city, with the resident a2. -/
def addressAshBray : Address := ⟨"1 Ash Road", "Bray", "BR", "20002", [personA2]⟩

/-- Address A without residents. -/
def addressEmpty : Address := ⟨"1 Ash Road", "Alba", "AL", "10001", []⟩

/-- A person without email. -/
def personNoEmail : Person := ⟨"d1", "", "Di", "Dale", "Di D.", ""⟩

/-- An address with valid fields whose resident has no email. -/
def addressD : Address := ⟨"4 Dale Row", "Dover", "DV", "40004", [personNoEmail]⟩

/-- Address C with an empty zipcode. -/
def addressNoZip : Address := ⟨"3 Cedar Way", "Crewe", "CR", "", [personC1]⟩

/-! ## A run whose giver keys are all zero -/

/-- The keys drawn by `rand.Int` in the run below: 0 for every entry of the giver
shuffle (call number 0 of an attempt) and decreasing positive keys for the
entries of every candidate shuffle. -/
def zeroGiverKeys (k : Nat) (m : GoMap) : Nat → Nat :=
  fun j => if k = 0 then 0 else m.length - j

/-- The results of `randomSequenceFromMapValues` in an attempt in which the
`range` loop visits the entries of every map as listed and `rand.Int` returns
the keys `zeroGiverKeys`. -/
def zeroGiverShuffle : Shuffler :=
  fun k m => randomSequenceFromMapValues m (zeroGiverKeys k m)

/-! ## Lemmas on Go maps -/

theorem mapContains_iff (m : GoMap) (k : String) :
    mapContains m k = true ↔ k ∈ mapKeys m := by
  simp [mapContains, mapKeys]

theorem mapContains_false_iff (m : GoMap) (k : String) :
    mapContains m k = false ↔ k ∉ mapKeys m := by
  rw [← mapContains_iff]; simp

theorem mapKeys_mapInsert (m : GoMap) (k : String) (v : Resident) :
    mapKeys (mapInsert m k v) = if k ∈ mapKeys m then mapKeys m else mapKeys m ++ [k] := by
  induction m with
  | nil => simp [mapInsert, mapKeys]
  | cons e rest ih =>
    by_cases h : e.1 = k
    · simp [mapInsert, mapKeys, h]
    · have h2 : ¬ k = e.1 := fun h3 => h h3.symm
      simp only [mapKeys] at ih
      by_cases hk : k ∈ List.map Prod.fst rest
      · simp [mapInsert, mapKeys, h, h2, hk, ih]
      · simp [mapInsert, mapKeys, h, h2, hk, ih]

theorem nodup_mapInsert (m : GoMap) (k : String) (v : Resident)
    (h : (mapKeys m).Nodup) : (mapKeys (mapInsert m k v)).Nodup := by
  rw [mapKeys_mapInsert]
  split
  · exact h
  · rename_i hk
    exact List.Nodup.append h (List.nodup_singleton k) (by simpa using hk)

theorem mem_mapInsert (m : GoMap) (k : String) (v : Resident) (e : String × Resident)
    (he : e ∈ mapInsert m k v) : e = (k, v) ∨ e ∈ m := by
  induction m with
  | nil => simp [mapInsert] at he; exact Or.inl he
  | cons x rest ih =>
    by_cases h : x.1 = k
    · simp only [mapInsert, h, if_true, List.mem_cons] at he
      rcases he with he | he
      · exact Or.inl he
      · exact Or.inr (List.mem_cons_of_mem _ he)
    · simp only [mapInsert, h, if_false, List.mem_cons] at he
      rcases he with he | he
      · exact Or.inr (he ▸ List.mem_cons_self _ _)
      · rcases ih he with h1 | h1
        · exact Or.inl h1
        · exact Or.inr (List.mem_cons_of_mem _ h1)

theorem keyedById_mapInsert (m : GoMap) (k : String) (v : Resident)
    (h : KeyedById m) (hv : v.Person.Id = k) : KeyedById (mapInsert m k v) := by
  intro e he
  rcases mem_mapInsert m k v e he with h1 | h1
  · rw [h1]; exact hv
  · exact h e h1

theorem mapDelete_sublist (m : GoMap) (k : String) : (mapDelete m k).Sublist m :=
  List.filter_sublist m

theorem mem_mapDelete (m : GoMap) (k : String) (e : String × Resident) :
    e ∈ mapDelete m k ↔ e ∈ m ∧ e.1 ≠ k := by
  simp [mapDelete]

theorem mapKeys_mapDelete (m : GoMap) (k : String) :
    mapKeys (mapDelete m k) = (mapKeys m).filter (fun x => !decide (x = k)) := by
  simp [mapKeys, mapDelete, List.filter_map, Function.comp_def]

theorem nodup_mapDelete (m : GoMap) (k : String) (h : (mapKeys m).Nodup) :
    (mapKeys (mapDelete m k)).Nodup := by
  rw [mapKeys_mapDelete]; exact h.filter _

theorem keyedById_mapDelete (m : GoMap) (k : String) (h : KeyedById m) :
    KeyedById (mapDelete m k) :=
  fun e he => h e ((mem_mapDelete m k e).1 he).1

theorem mapContains_mapDelete (m : GoMap) (k x : String) :
    mapContains (mapDelete m k) x = true ↔ mapContains m x = true ∧ x ≠ k := by
  rw [mapContains_iff, mapContains_iff, mapKeys_mapDelete]
  simp

theorem length_mapDelete (m : GoMap) (k : String) (h : (mapKeys m).Nodup)
    (hk : mapContains m k = true) : (mapDelete m k).length + 1 = m.length := by
  induction m with
  | nil => simp [mapContains] at hk
  | cons e rest ih =>
    have hn : e.1 ∉ mapKeys rest ∧ (mapKeys rest).Nodup := by
      simpa [mapKeys] using h
    by_cases he : e.1 = k
    · have h1 : mapDelete rest k = rest := by
        apply List.filter_eq_self.2
        intro a ha
        have : a.1 ≠ k := by
          intro h2
          apply hn.1
          rw [he, ← h2]
          exact List.mem_map_of_mem _ ha
        simp [this]
      have h2 : mapDelete (e :: rest) k = mapDelete rest k := by
        simp [mapDelete, he]
      rw [h2, h1]; simp
    · have h2 : mapDelete (e :: rest) k = e :: mapDelete rest k := by
        simp [mapDelete, he]
      have h3 : mapContains rest k = true := by
        simpa [mapContains, he] using hk
      rw [h2]
      simp only [List.length_cons]
      rw [ih hn.2 h3]

theorem mapIndex_mem (m : GoMap) (k : String) (h : mapContains m k = true) :
    (k, mapIndex m k) ∈ m := by
  induction m with
  | nil => simp [mapContains] at h
  | cons e rest ih =>
    unfold mapIndex
    by_cases he : e.1 = k
    · rw [if_pos he, ← he]; exact List.mem_cons_self _ _
    · rw [if_neg he]
      have h2 : mapContains rest k = true := by
        simpa [mapContains, he] using h
      exact List.mem_cons_of_mem _ (ih h2)

/-! ## Lemmas on the resident index -/

theorem addResidents_inv (address : Address) (people : List Person) (m : GoMap)
    (h1 : (mapKeys m).Nodup) (h2 : KeyedById m) :
    (mapKeys (addResidents address people m)).Nodup ∧
      KeyedById (addResidents address people m) := by
  induction people generalizing m with
  | nil => exact ⟨h1, h2⟩
  | cons p rest ih =>
    exact ih _ (nodup_mapInsert m _ _ h1) (keyedById_mapInsert m _ _ h2 rfl)

theorem addAddresses_inv (addresses : List Address) (m : GoMap)
    (h1 : (mapKeys m).Nodup) (h2 : KeyedById m) :
    (mapKeys (addAddresses addresses m)).Nodup ∧ KeyedById (addAddresses addresses m) := by
  induction addresses generalizing m with
  | nil => exact ⟨h1, h2⟩
  | cons a rest ih =>
    have h := addResidents_inv a a.Residents m h1 h2
    exact ih _ h.1 h.2

theorem nodup_createResidentMap (addresses : List Address) :
    (mapKeys (createResidentMap addresses)).Nodup :=
  (addAddresses_inv addresses [] List.nodup_nil (fun _ h => absurd h (List.not_mem_nil _))).1

theorem keyedById_createResidentMap (addresses : List Address) :
    KeyedById (createResidentMap addresses) :=
  (addAddresses_inv addresses [] List.nodup_nil (fun _ h => absurd h (List.not_mem_nil _))).2

theorem allPersons_cons (a : Address) (rest : List Address) :
    allPersons (a :: rest) = a.Residents ++ allPersons rest := by
  simp [allPersons]

theorem mapKeys_addResidents (a : Address) (people : List Person) (m : GoMap) (k : String) :
    k ∈ mapKeys (addResidents a people m) ↔ k ∈ mapKeys m ∨ ∃ p ∈ people, p.Id = k := by
  induction people generalizing m with
  | nil => simp [addResidents]
  | cons p rest ih =>
    unfold addResidents
    rw [ih, mapKeys_mapInsert]
    by_cases hp : p.Id ∈ mapKeys m
    · rw [if_pos hp]
      constructor
      · rintro (h | ⟨q, hq, hqe⟩)
        · exact Or.inl h
        · exact Or.inr ⟨q, List.mem_cons_of_mem _ hq, hqe⟩
      · rintro (h | ⟨q, hq, hqe⟩)
        · exact Or.inl h
        · rcases List.mem_cons.1 hq with rfl | hq
          · exact Or.inl (hqe ▸ hp)
          · exact Or.inr ⟨q, hq, hqe⟩
    · rw [if_neg hp]
      constructor
      · rintro (h | ⟨q, hq, hqe⟩)
        · rcases List.mem_append.1 h with h | h
          · exact Or.inl h
          · exact Or.inr ⟨p, List.mem_cons_self _ _, (List.mem_singleton.1 h).symm⟩
        · exact Or.inr ⟨q, List.mem_cons_of_mem _ hq, hqe⟩
      · rintro (h | ⟨q, hq, hqe⟩)
        · exact Or.inl (List.mem_append_left _ h)
        · rcases List.mem_cons.1 hq with rfl | hq
          · exact Or.inl (List.mem_append_right _ (List.mem_singleton.2 hqe.symm))
          · exact Or.inr ⟨q, hq, hqe⟩

theorem mapKeys_addAddresses (addresses : List Address) (m : GoMap) (k : String) :
    k ∈ mapKeys (addAddresses addresses m) ↔
      k ∈ mapKeys m ∨ ∃ p ∈ allPersons addresses, p.Id = k := by
  induction addresses generalizing m with
  | nil => simp [addAddresses, allPersons]
  | cons a rest ih =>
    unfold addAddresses
    rw [ih, mapKeys_addResidents, allPersons_cons]
    constructor
    · rintro ((h | ⟨q, hq, hqe⟩) | ⟨q, hq, hqe⟩)
      · exact Or.inl h
      · exact Or.inr ⟨q, List.mem_append_left _ hq, hqe⟩
      · exact Or.inr ⟨q, List.mem_append_right _ hq, hqe⟩
    · rintro (h | ⟨q, hq, hqe⟩)
      · exact Or.inl (Or.inl h)
      · rcases List.mem_append.1 hq with hq | hq
        · exact Or.inl (Or.inr ⟨q, hq, hqe⟩)
        · exact Or.inr ⟨q, hq, hqe⟩

theorem mapKeys_createResidentMap (addresses : List Address) (k : String) :
    k ∈ mapKeys (createResidentMap addresses) ↔ ∃ p ∈ allPersons addresses, p.Id = k := by
  unfold createResidentMap
  rw [mapKeys_addAddresses]
  simp [mapKeys]

theorem entries_addResidents (a : Address) (people : List Person) (m : GoMap)
    (e : String × Resident) (he : e ∈ addResidents a people m) :
    e ∈ m ∨ (e.2.Address = a ∧ e.2.Person ∈ people) := by
  induction people generalizing m with
  | nil => exact Or.inl he
  | cons p rest ih =>
    unfold addResidents at he
    rcases ih _ he with h | h
    · rcases mem_mapInsert m _ _ e h with h1 | h1
      · right; rw [h1]; exact ⟨rfl, List.mem_cons_self _ _⟩
      · exact Or.inl h1
    · exact Or.inr ⟨h.1, List.mem_cons_of_mem _ h.2⟩

theorem entries_addAddresses (addresses : List Address) (m : GoMap)
    (e : String × Resident) (he : e ∈ addAddresses addresses m) :
    e ∈ m ∨ (e.2.Address ∈ addresses ∧ e.2.Person ∈ e.2.Address.Residents) := by
  induction addresses generalizing m with
  | nil => exact Or.inl he
  | cons a rest ih =>
    unfold addAddresses at he
    rcases ih _ he with h | h
    · rcases entries_addResidents a a.Residents m e h with h1 | h1
      · exact Or.inl h1
      · right
        refine ⟨by rw [h1.1]; exact List.mem_cons_self _ _, by rw [h1.1]; exact h1.2⟩
    · exact Or.inr ⟨List.mem_cons_of_mem _ h.1, h.2⟩

theorem values_createResidentMap (addresses : List Address) (r : Resident)
    (hr : r ∈ mapValues (createResidentMap addresses)) :
    r.Address ∈ addresses ∧ r.Person ∈ r.Address.Residents := by
  obtain ⟨e, he, rfl⟩ := List.mem_map.1 hr
  rcases entries_addAddresses addresses [] e he with h | h
  · cases h
  · exact h

/-! ## Lemmas on the validator -/

theorem len_le_zero (s : String) : s.length ≤ 0 ↔ s = "" := by
  constructor
  · intro h
    cases s with
    | mk d =>
      have hd : d = [] := List.length_eq_zero.1 (Nat.le_zero.1 h)
      subst hd; rfl
  · rintro rfl; exact Nat.le_refl 0

theorem len_pos (s : String) : s.length > 0 ↔ s ≠ "" := by
  rw [← not_iff_not, not_not, ← len_le_zero]; omega

theorem validateResidents_ok_iff (rm : GoMap) (a : Address) (people : List Person)
    (idMap idMap1 : List String) :
    validateResidents rm a people idMap = .ok idMap1 ↔
      (∀ p ∈ people, PersonOk rm p) ∧ (people.map (fun p => p.Id)).Nodup ∧
      (∀ p ∈ people, p.Id ∉ idMap) ∧
      idMap1 = (people.map (fun p => p.Id)).reverse ++ idMap := by
  induction people generalizing idMap with
  | nil =>
    simp only [validateResidents, Except.ok.injEq, List.map_nil, List.reverse_nil,
      List.nil_append, List.nodup_nil, true_and]
    constructor
    · intro h; exact ⟨by simp, by simp, h.symm⟩
    · intro h; exact h.2.2.symm
  | cons p rest ih =>
    unfold validateResidents
    simp only [len_le_zero, len_pos]
    by_cases h1 : p.Id = ""
    · simp [h1, PersonOk]
    by_cases h2 : p.Id ∈ idMap
    · simp [h1, h2]
    by_cases h3 : p.FirstName = ""
    · simp [h1, h2, h3, PersonOk]
    by_cases h4 : p.LastName = ""
    · simp [h1, h2, h3, h4, PersonOk]
    by_cases h5 : p.PublicName = ""
    · simp [h1, h2, h3, h4, h5, PersonOk]
    by_cases h6 : p.Email = ""
    · simp [h1, h2, h3, h4, h5, h6, PersonOk]
    by_cases h7 : p.ActorId ≠ "" ∧ p.ActorId = p.Id
    · have h7a := h7.1
      have h7b := h7.2
      simp [h1, h2, h3, h4, h5, h6, h7a, h7b, PersonOk]
    by_cases h8 : p.ActorId ≠ "" ∧ mapContains rm p.ActorId = false
    · have h8a := h8.1
      have h8b := h8.2
      have h7c : ¬ p.ActorId = p.Id := fun h => h7 ⟨h8a, h⟩
      rw [if_neg h1, if_neg h2, if_neg h3, if_neg h4, if_neg h5, if_neg h6, if_pos h8a,
        if_neg h7c, if_pos h8b]
      simp [h8a, h8b, PersonOk]
    have hstep : (if p.ActorId ≠ "" then
          if p.ActorId = p.Id then Except.error (ValidationError.actorIdIsOwnId p)
          else if mapContains rm p.ActorId = false then
            Except.error (ValidationError.actorIdUnknown p)
          else validateResidents rm a rest (p.Id :: idMap)
        else validateResidents rm a rest (p.Id :: idMap))
        = validateResidents rm a rest (p.Id :: idMap) := by
      by_cases ha : p.ActorId ≠ ""
      · rw [if_pos ha, if_neg (fun h => h7 ⟨ha, h⟩), if_neg (fun h => h8 ⟨ha, h⟩)]
      · rw [if_neg ha]
    rw [if_neg h1, if_neg h2, if_neg h3, if_neg h4, if_neg h5, if_neg h6, hstep, ih]
    have hp : PersonOk rm p := by
      refine ⟨h1, h3, h4, h5, h6, ?_⟩
      intro ha
      constructor
      · intro hb; exact h7 ⟨ha, hb⟩
      · by_contra hc
        exact h8 ⟨ha, by simpa using hc⟩
    constructor
    · rintro ⟨ha, hb, hc, hd⟩
      refine ⟨?_, ?_, ?_, ?_⟩
      · intro q hq
        rcases List.mem_cons.1 hq with rfl | hq
        · exact hp
        · exact ha q hq
      · rw [List.map_cons, List.nodup_cons]
        refine ⟨?_, hb⟩
        intro hmem
        obtain ⟨q, hq, hqe⟩ := List.mem_map.1 hmem
        exact hc q hq (by rw [hqe]; exact List.mem_cons_self _ _)
      · intro q hq
        rcases List.mem_cons.1 hq with rfl | hq
        · exact h2
        · intro hm
          exact hc q hq (List.mem_cons_of_mem _ hm)
      · rw [hd]; simp
    · rintro ⟨ha, hb, hc, hd⟩
      rw [List.map_cons, List.nodup_cons] at hb
      refine ⟨?_, hb.2, ?_, ?_⟩
      · intro q hq; exact ha q (List.mem_cons_of_mem _ hq)
      · intro q hq hm
        rcases List.mem_cons.1 hm with hm | hm
        · exact hb.1 (List.mem_map.2 ⟨q, hq, hm⟩)
        · exact hc q (List.mem_cons_of_mem _ hq) hm
      · rw [hd]; simp

theorem validateAddresses_ok_iff (rm : GoMap) (addresses : List Address)
    (idMap : List String) :
    validateAddresses rm addresses idMap = .ok () ↔
      (∀ a ∈ addresses, AddressOk a) ∧ (∀ p ∈ allPersons addresses, PersonOk rm p) ∧
      ((allPersons addresses).map (fun p => p.Id)).Nodup ∧
      (∀ p ∈ allPersons addresses, p.Id ∉ idMap) := by
  induction addresses generalizing idMap with
  | nil => simp [validateAddresses, allPersons]
  | cons a rest ih =>
    unfold validateAddresses
    simp only [len_le_zero]
    by_cases h1 : a.Address = ""
    · simp [h1, AddressOk]
    by_cases h2 : a.City = ""
    · simp [h1, h2, AddressOk]
    by_cases h3 : a.State = ""
    · simp [h1, h2, h3, AddressOk]
    by_cases h4 : a.Zipcode = ""
    · simp [h1, h2, h3, h4, AddressOk]
    rw [if_neg h1, if_neg h2, if_neg h3, if_neg h4, allPersons_cons]
    have hok : AddressOk a := ⟨h1, h2, h3, h4⟩
    cases hv : validateResidents rm a a.Residents idMap with
    | error e =>
      simp only [false_iff, reduceCtorEq]
      rintro ⟨_, hb, hc, hd⟩
      have : validateResidents rm a a.Residents idMap
          = .ok ((a.Residents.map (fun p => p.Id)).reverse ++ idMap) := by
        rw [validateResidents_ok_iff]
        refine ⟨fun p hp => hb p (List.mem_append_left _ hp), ?_,
          fun p hp => hd p (List.mem_append_left _ hp), rfl⟩
        rw [List.map_append] at hc
        exact (List.nodup_append.1 hc).1
      rw [this] at hv
      cases hv
    | ok idMap1 =>
      obtain ⟨ha, hb, hc, hd⟩ := (validateResidents_ok_iff rm a a.Residents idMap idMap1).1 hv
      simp only
      rw [ih, hd]
      constructor
      · rintro ⟨ia, ib, ic, id⟩
        refine ⟨?_, ?_, ?_, ?_⟩
        · intro x hx
          rcases List.mem_cons.1 hx with rfl | hx
          · exact hok
          · exact ia x hx
        · intro p hp
          rcases List.mem_append.1 hp with hp | hp
          · exact ha p hp
          · exact ib p hp
        · rw [List.map_append, List.nodup_append]
          refine ⟨hb, ic, ?_⟩
          intro x hx1 hx2
          obtain ⟨q, hq, hqe⟩ := List.mem_map.1 hx2
          apply id q hq
          rw [hqe]
          exact List.mem_append_left _ (List.mem_reverse.2 hx1)
        · intro p hp
          rcases List.mem_append.1 hp with hp | hp
          · exact hc p hp
          · intro hm
            exact id p hp (List.mem_append_right _ hm)
      · rintro ⟨ia, ib, ic, id⟩
        rw [List.map_append, List.nodup_append] at ic
        refine ⟨fun x hx => ia x (List.mem_cons_of_mem _ hx),
          fun p hp => ib p (List.mem_append_right _ hp), ic.2.1, ?_⟩
        intro p hp hm
        rcases List.mem_append.1 hm with hm | hm
        · exact ic.2.2 (List.mem_reverse.1 hm) (List.mem_map.2 ⟨p, hp, rfl⟩)
        · exact id p (List.mem_append_right _ hp) hm

theorem validateData_ok_iff (addresses : List Address) :
    validateData addresses = .ok () ↔ ValidData addresses := by
  unfold validateData ValidData
  rw [validateAddresses_ok_iff]
  constructor
  · rintro ⟨ha, hb, hc, _⟩
    refine ⟨ha, fun p hp => ?_, hc, fun p hp hact => ?_⟩
    · obtain ⟨h1, h2, h3, h4, h5, _⟩ := hb p hp
      exact ⟨h1, h2, h3, h4, h5⟩
    · obtain ⟨_, _, _, _, _, h6⟩ := hb p hp
      obtain ⟨h7, h8⟩ := h6 hact
      exact ⟨h7, (mapKeys_createResidentMap addresses _).1 ((mapContains_iff _ _).1 h8)⟩
  · rintro ⟨ha, hb, hc, hd⟩
    refine ⟨ha, fun p hp => ?_, hc, fun p _ hm => by cases hm⟩
    obtain ⟨h1, h2, h3, h4, h5⟩ := hb p hp
    refine ⟨h1, h2, h3, h4, h5, fun hact => ?_⟩
    obtain ⟨h7, h8⟩ := hd p hp hact
    exact ⟨h7, (mapContains_iff _ _).2 ((mapKeys_createResidentMap addresses _).2 h8)⟩

/-! ## Lemmas on the shuffle -/

theorem zipWith_right_eq_map {α β γ : Type} (g : β → γ) (l1 : List α) (l2 : List β)
    (h : l2.length ≤ l1.length) : List.zipWith (fun _ b => g b) l1 l2 = l2.map g := by
  induction l2 generalizing l1 with
  | nil => simp
  | cons b rest ih =>
    cases l1 with
    | nil => simp at h
    | cons a rest1 =>
      rw [List.zipWith_cons_cons, List.map_cons, ih rest1 (by simpa using h)]

theorem mem_zipWith_right {α β γ : Type} (f : α → β → γ) (l1 : List α) (l2 : List β)
    (x : γ) (h : x ∈ List.zipWith f l1 l2) : ∃ a b, b ∈ l2 ∧ x = f a b := by
  induction l1 generalizing l2 with
  | nil => simp at h
  | cons a rest ih =>
    cases l2 with
    | nil => simp at h
    | cons b rest2 =>
      rw [List.zipWith_cons_cons] at h
      rcases List.mem_cons.1 h with h | h
      · exact ⟨a, b, List.mem_cons_self _ _, h⟩
      · obtain ⟨a1, b1, hb, hx⟩ := ih rest2 h
        exact ⟨a1, b1, List.mem_cons_of_mem _ hb, hx⟩

theorem sorted_positive_first {T : Type} (l : List (randElement T))
    (h : l.Sorted (fun a b => a.Order ≥ b.Order)) :
    l = l.filter (fun e => decide (0 < e.Order)) ++ l.filter (fun e => !decide (0 < e.Order)) := by
  induction l with
  | nil => rfl
  | cons a rest ih =>
    have hrest := ih (List.Sorted.of_cons h)
    by_cases ha : 0 < a.Order
    · rw [List.filter_cons_of_pos (by simp [ha]),
        List.filter_cons_of_neg (by simp [ha]), List.cons_append, ← hrest]
    · have hall : ∀ b ∈ rest, ¬ 0 < b.Order := by
        intro b hb
        have := List.rel_of_sorted_cons h b hb
        omega
      have h1 : rest.filter (fun e => decide (0 < e.Order)) = [] :=
        List.filter_eq_nil_iff.2 (fun b hb => by simpa using hall b hb)
      have h2 : rest.filter (fun e => !decide (0 < e.Order)) = rest :=
        List.filter_eq_self.2 (fun b hb => by simpa using hall b hb)
      rw [List.filter_cons_of_neg (by simp [ha]),
        List.filter_cons_of_pos (by simp [ha]), h1, h2, List.nil_append]

/-- The elements with a positive key that `randomSequenceFromMapValues` sorts. -/
theorem shuffle_take (input : GoMap) (draws : Nat → Nat)
    (hpos : ∀ i, i < input.length → 0 < draws i) :
    ((sortSlice (List.replicate input.length
          ({ Order := 0, Element := default } : randElement Resident) ++
        List.zipWith (fun i e => ({ Order := draws i, Element := e.2 } : randElement Resident))
          (List.range input.length) input)).take input.length)
      = (sortSlice (List.replicate input.length
          ({ Order := 0, Element := default } : randElement Resident) ++
        List.zipWith (fun i e => ({ Order := draws i, Element := e.2 } : randElement Resident))
          (List.range input.length) input)).filter (fun e => decide (0 < e.Order)) ∧
    ((sortSlice (List.replicate input.length
          ({ Order := 0, Element := default } : randElement Resident) ++
        List.zipWith (fun i e => ({ Order := draws i, Element := e.2 } : randElement Resident))
          (List.range input.length) input)).filter (fun e => decide (0 < e.Order))).Perm
      (List.zipWith (fun i e => ({ Order := draws i, Element := e.2 } : randElement Resident))
          (List.range input.length) input) := by
  have htotal : IsTotal (randElement Resident) (fun a b => a.Order ≥ b.Order) :=
    ⟨fun a b => le_total _ _⟩
  have htrans : IsTrans (randElement Resident) (fun a b => a.Order ≥ b.Order) :=
    ⟨fun a b c h1 h2 => le_trans h2 h1⟩
  generalize hz : List.replicate input.length
    ({ Order := 0, Element := default } : randElement Resident) = zeros
  generalize hd : List.zipWith
    (fun i e => ({ Order := draws i, Element := e.2 } : randElement Resident))
    (List.range input.length) input = drawn
  have hsorted : (sortSlice (zeros ++ drawn)).Sorted (fun a b => a.Order ≥ b.Order) :=
    List.sorted_insertionSort _ _
  have hperm : (sortSlice (zeros ++ drawn)).Perm (zeros ++ drawn) :=
    List.perm_insertionSort _ _
  have hzero : zeros.filter (fun e => decide (0 < e.Order)) = [] := by
    rw [List.filter_eq_nil_iff]
    intro e he
    rw [← hz] at he
    rw [List.eq_of_mem_replicate he]
    simp
  have hdrawn : drawn.filter (fun e => decide (0 < e.Order)) = drawn := by
    rw [List.filter_eq_self]
    intro e he
    rw [← hd] at he
    obtain ⟨i, hi, rfl⟩ := List.mem_iff_getElem.1 he
    rw [List.getElem_zipWith, List.getElem_range]
    have hi2 : i < input.length := by
      rw [List.length_zipWith, List.length_range] at hi
      omega
    simpa using hpos i hi2
  have hfp : ((sortSlice (zeros ++ drawn)).filter (fun e => decide (0 < e.Order))).Perm drawn := by
    have := hperm.filter (fun e => decide (0 < e.Order))
    rwa [List.filter_append, hzero, hdrawn, List.nil_append] at this
  refine ⟨?_, hfp⟩
  have hlen : ((sortSlice (zeros ++ drawn)).filter (fun e => decide (0 < e.Order))).length
      = input.length := by
    rw [hfp.length_eq, ← hd, List.length_zipWith, List.length_range]
    simp
  conv_lhs => rw [sorted_positive_first _ hsorted]
  exact List.take_left' hlen

/-- The result of `randomSequenceFromMapValues` has `len(input)` elements. -/
theorem randomSequenceFromMapValues_length (input : GoMap) (draws : Nat → Nat) :
    (randomSequenceFromMapValues input draws).length = input.length := by
  unfold randomSequenceFromMapValues sortSlice
  simp

theorem randomSequenceFromMapValues_mem (input : GoMap) (draws : Nat → Nat) :
    ∀ r ∈ randomSequenceFromMapValues input draws, r ∈ mapValues input ∨ r = default := by
  intro r hr
  unfold randomSequenceFromMapValues sortSlice at hr
  obtain ⟨x, hx, rfl⟩ := List.mem_map.1 hr
  have hx2 := (List.perm_insertionSort _ _).subset (List.mem_of_mem_take hx)
  rcases List.mem_append.1 hx2 with h | h
  · right
    rw [List.eq_of_mem_replicate h]
  · left
    obtain ⟨i, e, he, rfl⟩ := mem_zipWith_right _ _ _ _ h
    exact List.mem_map.2 ⟨e, he, rfl⟩

/-- With positive keys `randomSequenceFromMapValues` returns a permutation of the
values of the map. -/
theorem randomSequenceFromMapValues_perm (input : GoMap) (draws : Nat → Nat)
    (hpos : ∀ i, i < input.length → 0 < draws i) :
    (randomSequenceFromMapValues input draws).Perm (mapValues input) := by
  obtain ⟨h1, h2⟩ := shuffle_take input draws hpos
  unfold randomSequenceFromMapValues
  simp only
  rw [h1]
  have h3 := h2.map (fun e => e.Element)
  rw [List.map_zipWith] at h3
  have h4 : List.zipWith (fun (_ : Nat) (y : String × Resident) => y.2)
      (List.range input.length) input = mapValues input :=
    zipWith_right_eq_map Prod.snd _ _ (by simp)
  rw [h4] at h3
  exact h3

/-- Every permutation of the values of an index is returned by
`randomSequenceFromMapValues` for some visiting order of the entries and some
keys: the entries visited in the wanted order with decreasing positive keys. -/
theorem randomSequenceFromMapValues_realizes (m : GoMap) (hkey : KeyedById m)
    (target : List Resident) (htarget : target.Perm (mapValues m)) :
    ∃ (visit : GoMap) (draws : Nat → Nat), visit.Perm m ∧
      randomSequenceFromMapValues visit draws = target := by
  have hm : (mapValues m).map (fun r => (r.Person.Id, r)) = m := by
    unfold mapValues
    rw [List.map_map]
    conv_rhs => rw [← List.map_id m]
    exact List.map_congr_left (fun e he => by
      show (e.2.Person.Id, e.2) = e
      rw [hkey e he])
  have hvisit : (target.map (fun r => (r.Person.Id, r))).Perm m := by
    have := htarget.map (fun r => (r.Person.Id, r))
    rwa [hm] at this
  refine ⟨target.map (fun r => (r.Person.Id, r)), fun i => target.length - i, hvisit, ?_⟩
  have hantisymm : IsAntisymm (randElement Resident) (fun a b => a.Order > b.Order) :=
    ⟨fun a b h1 h2 => absurd h1 (by omega)⟩
  have hlenv : (target.map (fun r : Resident => (r.Person.Id, r))).length = target.length := by
    simp
  obtain ⟨h1, h2⟩ := shuffle_take (target.map (fun r => (r.Person.Id, r)))
    (fun i => target.length - i) (fun i hi => by
      rw [hlenv] at hi
      show 0 < target.length - i
      omega)
  unfold randomSequenceFromMapValues
  simp only
  rw [h1]
  generalize hs : (sortSlice (List.replicate (target.map (fun r => (r.Person.Id, r))).length
      ({ Order := 0, Element := default } : randElement Resident) ++
      List.zipWith (fun i e => ({ Order := target.length - i, Element := e.2 } :
        randElement Resident))
        (List.range (target.map (fun r => (r.Person.Id, r))).length)
        (target.map (fun r => (r.Person.Id, r))))).filter (fun e => decide (0 < e.Order))
    = kept at h2 ⊢
  generalize hd : List.zipWith (fun i e => ({ Order := target.length - i, Element := e.2 } :
        randElement Resident))
        (List.range (target.map (fun r => (r.Person.Id, r))).length)
        (target.map (fun r => (r.Person.Id, r))) = drawn at h2
  have hdrawn : drawn.Sorted (fun a b => a.Order > b.Order) := by
    rw [List.Sorted, List.pairwise_iff_getElem]
    intro i j hi hj hij
    have hj2 : j < target.length := by
      rw [← hd, List.length_zipWith, List.length_range, hlenv] at hj
      omega
    simp only [← hd, List.getElem_zipWith, List.getElem_range]
    omega
  have hkept : kept.Sorted (fun a b => a.Order > b.Order) := by
    have hge : kept.Sorted (fun a b => a.Order ≥ b.Order) := by
      have htotal : IsTotal (randElement Resident) (fun a b => a.Order ≥ b.Order) :=
        ⟨fun a b => le_total _ _⟩
      have htrans : IsTrans (randElement Resident) (fun a b => a.Order ≥ b.Order) :=
        ⟨fun a b c h1 h2 => le_trans h2 h1⟩
      rw [← hs]
      exact List.Sorted.filter _ (List.sorted_insertionSort _ _)
    have hne : kept.Pairwise (fun a b => a.Order ≠ b.Order) := by
      rw [List.Perm.pairwise_iff (fun h => Ne.symm h) h2]
      exact List.Pairwise.imp (fun h => by omega) hdrawn
    exact List.Pairwise.imp (fun h => by omega) (List.Pairwise.and hge hne)
  rw [List.eq_of_perm_of_sorted h2 hkept hdrawn, ← hd, List.map_zipWith]
  rw [zipWith_right_eq_map Prod.snd _ _ (by simp), List.map_map]
  exact List.map_id _

/-! ## Lemmas on the assignment loops -/

theorem makeAssignment_From (residents : GoMap) (f t : Resident) :
    (makeAssignment residents f t).From = f := by
  unfold makeAssignment; split <;> rfl

theorem makeAssignment_To (residents : GoMap) (f t : Resident) :
    (makeAssignment residents f t).To = t := by
  unfold makeAssignment; split <;> rfl

theorem recipientLoop_some (allow : Bool) (residents : GoMap) (f : Resident)
    (copy : GoMap) (acc : List SecretSantaAssignment) (cands : List Resident)
    (copy1 : GoMap) (acc1 : List SecretSantaAssignment)
    (h : recipientLoop allow residents f copy acc cands = some (copy1, acc1)) :
    ∃ t ∈ cands, f.Person.Id ≠ t.Person.Id ∧ mapContains copy t.Person.Id = true ∧
      (allow = false → f.Address.Address ≠ t.Address.Address) ∧
      copy1 = mapDelete copy t.Person.Id ∧
      acc1 = acc ++ [makeAssignment residents f t] := by
  induction cands with
  | nil => simp [recipientLoop] at h
  | cons c rest ih =>
    unfold recipientLoop at h
    split at h
    · obtain ⟨t, ht, h2⟩ := ih h
      exact ⟨t, List.mem_cons_of_mem _ ht, h2⟩
    · rename_i hid
      split at h
      · obtain ⟨t, ht, h2⟩ := ih h
        exact ⟨t, List.mem_cons_of_mem _ ht, h2⟩
      · rename_i hc
        split at h
        · obtain ⟨t, ht, h2⟩ := ih h
          exact ⟨t, List.mem_cons_of_mem _ ht, h2⟩
        · rename_i ha
          simp only [Option.some.injEq, Prod.mk.injEq] at h
          refine ⟨c, List.mem_cons_self _ _, hid, by simpa using hc, ?_, h.1.symm, h.2.symm⟩
          intro hal hadd
          exact ha ⟨hal, hadd⟩

theorem recipientLoop_none (allow : Bool) (residents : GoMap) (f : Resident)
    (copy : GoMap) (acc : List SecretSantaAssignment) (cands : List Resident) :
    recipientLoop allow residents f copy acc cands = none ↔
      ∀ t ∈ cands, f.Person.Id = t.Person.Id ∨ mapContains copy t.Person.Id = false ∨
        (allow = false ∧ f.Address.Address = t.Address.Address) := by
  induction cands with
  | nil => simp [recipientLoop]
  | cons c rest ih =>
    unfold recipientLoop
    by_cases h1 : f.Person.Id = c.Person.Id
    · simp [h1, ih]
    · by_cases h2 : mapContains copy c.Person.Id = false
      · simp [h1, h2, ih]
      · by_cases h3 : allow = false ∧ f.Address.Address = c.Address.Address
        · rw [if_neg h1, if_neg h2, if_pos h3, ih]
          constructor
          · intro h t ht
            rcases List.mem_cons.1 ht with rfl | ht
            · exact Or.inr (Or.inr h3)
            · exact h t ht
          · intro h t ht
            exact h t (List.mem_cons_of_mem _ ht)
        · rw [if_neg h1, if_neg h2, if_neg h3]
          constructor
          · intro h; simp at h
          · intro h
            rcases h c (List.mem_cons_self _ _) with h4 | h4 | h4
            · exact absurd h4 h1
            · exact absurd h4 h2
            · exact absurd h4 h3

theorem giverLoop_ok (allow : Bool) (residents : GoMap) (shuffle : Shuffler)
    (givers : List Resident) (k : Nat) (copy : GoMap)
    (acc out : List SecretSantaAssignment)
    (h : giverLoop allow residents shuffle givers k copy acc = .ok out) :
    ∃ pairs : List (Resident × Resident), Picks allow shuffle k copy pairs ∧
      out = acc ++ pairs.map (fun p => makeAssignment residents p.1 p.2) ∧
      pairs.map Prod.fst <+: givers := by
  induction givers generalizing k copy acc with
  | nil =>
    simp only [giverLoop, Except.ok.injEq] at h
    exact ⟨[], trivial, by simp [h], by simp⟩
  | cons f rest ih =>
    unfold giverLoop at h
    split at h
    · simp only [Except.ok.injEq] at h
      exact ⟨[], trivial, by simp [h], by simp⟩
    · split at h
      · simp at h
      · rename_i copy1 acc1 hr
        obtain ⟨t, ht, hid, hc, ha, rfl, rfl⟩ :=
          recipientLoop_some allow residents f copy acc _ copy1 acc1 hr
        obtain ⟨pairs, hp, hout, hpre⟩ := ih _ _ _ h
        refine ⟨(f, t) :: pairs, ⟨ht, hid, hc, ha, hp⟩, ?_, ?_⟩
        · simp [hout]
        · simpa using hpre

theorem giverLoop_froms (allow : Bool) (residents : GoMap) (shuffle : Shuffler)
    (givers : List Resident) (k : Nat) (copy : GoMap)
    (acc out : List SecretSantaAssignment)
    (hn : (mapKeys copy).Nodup) (hlen : givers.length ≤ copy.length)
    (h : giverLoop allow residents shuffle givers k copy acc = .ok out) :
    out.map (fun a => a.From) = acc.map (fun a => a.From) ++ givers := by
  induction givers generalizing k copy acc with
  | nil =>
    simp only [giverLoop, Except.ok.injEq] at h
    simp [h]
  | cons f rest ih =>
    unfold giverLoop at h
    split at h
    · rename_i h0
      simp [h0] at hlen
    · split at h
      · simp at h
      · rename_i copy1 acc1 hr
        obtain ⟨t, ht, hid, hc, ha, rfl, rfl⟩ :=
          recipientLoop_some allow residents f copy acc _ copy1 acc1 hr
        have hl := length_mapDelete copy t.Person.Id hn hc
        have hlen2 : rest.length ≤ (mapDelete copy t.Person.Id).length := by
          simp only [List.length_cons] at hlen; omega
        rw [ih _ _ _ (nodup_mapDelete copy _ hn) hlen2 h]
        simp [makeAssignment_From]

theorem giverLoop_error (allow : Bool) (residents : GoMap) (shuffle : Shuffler)
    (givers : List Resident) (k : Nat) (copy : GoMap)
    (acc : List SecretSantaAssignment) (e : String)
    (h : giverLoop allow residents shuffle givers k copy acc = .error e) :
    e = "Unable to find a pairing" := by
  induction givers generalizing k copy acc with
  | nil => simp [giverLoop] at h
  | cons f rest ih =>
    unfold giverLoop at h
    split at h
    · simp at h
    · split at h
      · simpa using h.symm
      · exact ih _ _ _ h

theorem picks_rules (allow : Bool) (shuffle : Shuffler) (k : Nat) (copy : GoMap)
    (pairs : List (Resident × Resident)) (h : Picks allow shuffle k copy pairs) :
    ∀ p ∈ pairs, p.1.Person.Id ≠ p.2.Person.Id ∧
      (allow = false → p.1.Address.Address ≠ p.2.Address.Address) := by
  induction pairs generalizing k copy with
  | nil => intro p hp; cases hp
  | cons q rest ih =>
    obtain ⟨_, h2, _, h4, h5⟩ := h
    intro p hp
    rcases List.mem_cons.1 hp with rfl | hp
    · exact ⟨h2, h4⟩
    · exact ih _ _ h5 p hp

theorem picks_contains (allow : Bool) (shuffle : Shuffler) (k : Nat) (copy : GoMap)
    (pairs : List (Resident × Resident)) (h : Picks allow shuffle k copy pairs) :
    ∀ p ∈ pairs, mapContains copy p.2.Person.Id = true := by
  induction pairs generalizing k copy with
  | nil => intro p hp; cases hp
  | cons q rest ih =>
    obtain ⟨_, _, h3, _, h5⟩ := h
    intro p hp
    rcases List.mem_cons.1 hp with rfl | hp
    · exact h3
    · exact ((mapContains_mapDelete copy _ _).1 (ih _ _ h5 p hp)).1

theorem picks_nodup (allow : Bool) (shuffle : Shuffler) (k : Nat) (copy : GoMap)
    (pairs : List (Resident × Resident)) (h : Picks allow shuffle k copy pairs) :
    (pairs.map (fun p => p.2.Person.Id)).Nodup := by
  induction pairs generalizing k copy with
  | nil => exact List.nodup_nil
  | cons q rest ih =>
    obtain ⟨_, _, _, _, h5⟩ := h
    rw [List.map_cons, List.nodup_cons]
    refine ⟨?_, ih _ _ h5⟩
    intro hmem
    obtain ⟨p, hp, hpe⟩ := List.mem_map.1 hmem
    have hc := picks_contains allow shuffle _ _ rest h5 p hp
    have := ((mapContains_mapDelete copy _ _).1 hc).2
    exact this hpe

theorem picks_entries (allow : Bool) (shuffle : Shuffler) (k : Nat) (root copy : GoMap)
    (pairs : List (Resident × Resident))
    (hcand : ∀ j m, m.Sublist root → ∀ r ∈ shuffle j m,
      mapContains m r.Person.Id = true → r ∈ mapValues m)
    (hroot : copy.Sublist root) (hkey : KeyedById copy)
    (h : Picks allow shuffle k copy pairs) :
    ∀ p ∈ pairs, (p.2.Person.Id, p.2) ∈ copy := by
  induction pairs generalizing k copy with
  | nil => intro p hp; cases hp
  | cons q rest ih =>
    obtain ⟨h1, _, h3, _, h5⟩ := h
    intro p hp
    rcases List.mem_cons.1 hp with rfl | hp
    · have hv := hcand _ _ hroot _ h1 h3
      obtain ⟨e, he, hev⟩ := List.mem_map.1 hv
      have hk := hkey e he
      rw [hev] at hk
      rw [hk, ← hev]
      exact he
    · exact ((mem_mapDelete copy _ _).1
        (ih _ _ ((mapDelete_sublist copy _).trans hroot)
          (keyedById_mapDelete copy _ hkey) h5 p hp)).1

theorem attempt_ok (allow : Bool) (residents : GoMap) (shuffle : Shuffler)
    (assignments : List SecretSantaAssignment)
    (h : attemptSecretSantaAssignments allow residents shuffle = .ok assignments) :
    ∃ pairs : List (Resident × Resident), Picks allow shuffle 0 residents pairs ∧
      assignments = pairs.map (fun p => makeAssignment residents p.1 p.2) ∧
      pairs.map Prod.fst <+: shuffle 0 residents := by
  obtain ⟨pairs, h1, h2, h3⟩ := giverLoop_ok allow residents shuffle _ 0 residents [] _ h
  exact ⟨pairs, h1, by simpa using h2, h3⟩

theorem attempt_froms (allow : Bool) (residents : GoMap) (shuffle : Shuffler)
    (assignments : List SecretSantaAssignment)
    (hn : (mapKeys residents).Nodup)
    (hperm : (shuffle 0 residents).Perm (mapValues residents))
    (h : attemptSecretSantaAssignments allow residents shuffle = .ok assignments) :
    assignments.map (fun a => a.From) = shuffle 0 residents := by
  have hlen : (shuffle 0 residents).length ≤ residents.length := by
    rw [hperm.length_eq]; simp [mapValues]
  simpa using giverLoop_froms allow residents shuffle _ 0 residents [] _ hn hlen h

theorem attempt_error_or_ok (allow : Bool) (residents : GoMap) (shuffle : Shuffler) :
    attemptSecretSantaAssignments allow residents shuffle = .error "Unable to find a pairing" ∨
    ∃ assignments, attemptSecretSantaAssignments allow residents shuffle = .ok assignments := by
  cases h : attemptSecretSantaAssignments allow residents shuffle with
  | error e =>
    left
    rw [giverLoop_error allow residents shuffle _ 0 residents [] e h]
  | ok assignments => exact Or.inr ⟨assignments, rfl⟩

/-- With the flag false, over an index in which one street address houses more
than half of the residents, no run of the giver loop pairs every resident: the
givers of that address would need as many distinct receivers elsewhere.  The
candidates are only required to be values of the shuffled map, a part of the
index, whenever their id is a key of it. -/
theorem majority_blocks (residents : GoMap) (shuffle : Shuffler) (street : String)
    (pairs : List (Resident × Resident)) (hk : KeyedById residents)
    (hmajority : residents.length <
      2 * (mapValues residents).countP (fun r => decide (r.Address.Address = street)))
    (hcand : ∀ j m, m.Sublist residents → ∀ r ∈ shuffle j m,
      mapContains m r.Person.Id = true → r ∈ mapValues m)
    (hp : Picks false shuffle 0 residents pairs)
    (hfperm : (pairs.map Prod.fst).Perm (mapValues residents)) : False := by
  have hent := picks_entries false shuffle 0 residents residents pairs hcand
    (List.Sublist.refl _) hk hp
  have hrules := picks_rules false shuffle 0 residents pairs hp
  have hnd : (pairs.map Prod.snd).Nodup := by
    have h1 := picks_nodup false shuffle 0 residents pairs hp
    have h2 : pairs.map (fun p => p.2.Person.Id)
        = (pairs.map Prod.snd).map (fun r => r.Person.Id) := by
      rw [List.map_map]; rfl
    rw [h2] at h1
    exact List.Nodup.of_map _ h1
  have hcount : (pairs.filter (fun p => decide (p.1.Address.Address = street))).length
      = (mapValues residents).countP (fun r => decide (r.Address.Address = street)) := by
    rw [← hfperm.countP_eq, List.countP_map, List.countP_eq_length_filter]
    rfl
  have hnd2 : ((pairs.filter (fun p => decide (p.1.Address.Address = street))).map
      Prod.snd).Nodup :=
    List.Nodup.sublist ((List.filter_sublist pairs).map Prod.snd) hnd
  have hsub : (pairs.filter (fun p => decide (p.1.Address.Address = street))).map Prod.snd
      ⊆ (mapValues residents).filter (fun r => !decide (r.Address.Address = street)) := by
    intro t ht
    obtain ⟨p, hpf, rfl⟩ := List.mem_map.1 ht
    obtain ⟨hpm, hps⟩ := List.mem_filter.1 hpf
    have hps2 : p.1.Address.Address = street := by simpa using hps
    rw [List.mem_filter]
    refine ⟨List.mem_map.2 ⟨_, hent p hpm, rfl⟩, ?_⟩
    have := (hrules p hpm).2 rfl
    rw [hps2] at this
    simpa using fun h => this h.symm
  have hle := (List.subperm_of_subset hnd2 hsub).length_le
  rw [List.length_map, hcount, ← List.countP_eq_length_filter] at hle
  have htot : (mapValues residents).length
      = List.countP (fun r : Resident => decide (r.Address.Address = street))
          (mapValues residents)
        + List.countP (fun r : Resident => !decide (r.Address.Address = street))
          (mapValues residents) := by
    rw [List.length_eq_countP_add_countP
      (fun r : Resident => decide (r.Address.Address = street)) (mapValues residents)]
    simp
  have hlen : (mapValues residents).length = residents.length := by simp [mapValues]
  omega

theorem attempt_fails_of_majority (residents : GoMap) (shuffle : Shuffler) (street : String)
    (hn : (mapKeys residents).Nodup) (hk : KeyedById residents)
    (hmajority : residents.length <
      2 * (mapValues residents).countP (fun r => decide (r.Address.Address = street)))
    (hperm : ∀ k m, (shuffle k m).Perm (mapValues m)) :
    attemptSecretSantaAssignments false residents shuffle
      = .error "Unable to find a pairing" := by
  rcases attempt_error_or_ok false residents shuffle with h | ⟨assignments, hok⟩
  · exact h
  exfalso
  obtain ⟨pairs, hp, has, _⟩ := attempt_ok false residents shuffle assignments hok
  have hfrom := attempt_froms false residents shuffle assignments hn (hperm 0 residents) hok
  have hfst : pairs.map Prod.fst = shuffle 0 residents := by
    rw [← hfrom, has, List.map_map]
    exact List.map_congr_left (fun p _ => (makeAssignment_From residents p.1 p.2).symm)
  have hfperm : (pairs.map Prod.fst).Perm (mapValues residents) := by
    rw [hfst]; exact hperm 0 residents
  exact majority_blocks residents shuffle street pairs hk hmajority
    (fun j m _ r hr _ => (hperm j m).subset hr) hp hfperm

/-! ## Lemmas on the retry loop -/

theorem generateLoop_all_fail (allow : Bool) (recipients : GoMap) (shuffles : Nat → Shuffler)
    (fuel count : Nat) (hfuel : fuel + count = 1000) (hpos : 0 < fuel)
    (hfail : ∀ i, count ≤ i → i < 1000 →
      ∃ e, attemptSecretSantaAssignments allow recipients (shuffles i) = .error e) :
    generateLoop allow recipients shuffles fuel count =
      .error (if allow = false then messagePlain else messageHint) := by
  induction fuel generalizing count with
  | zero => omega
  | succ fuel ih =>
    have hc : count < 1000 := by omega
    obtain ⟨e, he⟩ := hfail count (Nat.le_refl _) hc
    unfold generateLoop
    rw [if_pos hc, he]
    by_cases h1 : count + 1 = 1000
    · simp only [h1, if_true]
      split <;> rfl
    · simp only [h1, if_false]
      exact ih (count + 1) (by omega) (by omega)
        (fun i hi hi2 => hfail i (by omega) hi2)

theorem generateLoop_first_ok (allow : Bool) (recipients : GoMap) (shuffles : Nat → Shuffler)
    (fuel count i : Nat) (assignments : List SecretSantaAssignment)
    (hfuel : fuel + count = 1000) (hci : count ≤ i) (hi : i < 1000)
    (hok : attemptSecretSantaAssignments allow recipients (shuffles i) = .ok assignments)
    (hfail : ∀ j, count ≤ j → j < i →
      ∃ e, attemptSecretSantaAssignments allow recipients (shuffles j) = .error e) :
    generateLoop allow recipients shuffles fuel count = .ok assignments := by
  induction fuel generalizing count with
  | zero => omega
  | succ fuel ih =>
    have hc : count < 1000 := by omega
    unfold generateLoop
    rw [if_pos hc]
    by_cases hici : i = count
    · subst hici
      rw [hok]
    · obtain ⟨e, he⟩ := hfail count (Nat.le_refl _) (by omega)
      rw [he]
      have h1 : ¬ count + 1 = 1000 := by omega
      simp only [h1, if_false]
      exact ih (count + 1) (by omega) (by omega) (fun j hj hj2 => hfail j (by omega) hj2)

theorem generateLoop_ok (allow : Bool) (recipients : GoMap) (shuffles : Nat → Shuffler)
    (fuel count : Nat) (assignments : List SecretSantaAssignment)
    (hfuel : fuel + count = 1000) (hpos : 0 < fuel)
    (h : generateLoop allow recipients shuffles fuel count = .ok assignments) :
    ∃ i, count ≤ i ∧ i < 1000 ∧
      attemptSecretSantaAssignments allow recipients (shuffles i) = .ok assignments ∧
      ∀ j, count ≤ j → j < i →
        ∃ e, attemptSecretSantaAssignments allow recipients (shuffles j) = .error e := by
  induction fuel generalizing count with
  | zero => omega
  | succ fuel ih =>
    have hc : count < 1000 := by omega
    unfold generateLoop at h
    rw [if_pos hc] at h
    split at h
    · rename_i as hok
      simp only [Except.ok.injEq] at h
      subst h
      exact ⟨count, Nat.le_refl _, hc, hok, fun j hj hj2 => by omega⟩
    · rename_i e he
      by_cases h1 : count + 1 = 1000
      · simp only [h1, if_true] at h
        split at h <;> simp at h
      · simp only [h1, if_false] at h
        obtain ⟨i, hi1, hi2, hi3, hi4⟩ := ih (count + 1) (by omega) (by omega) h
        refine ⟨i, by omega, hi2, hi3, ?_⟩
        intro j hj hj2
        by_cases hjc : j = count
        · subst hjc; exact ⟨e, he⟩
        · exact hi4 j (by omega) hj2

theorem generateLoop_error (allow : Bool) (recipients : GoMap) (shuffles : Nat → Shuffler)
    (fuel count : Nat) (e : String) (hfuel : fuel + count = 1000)
    (h : generateLoop allow recipients shuffles fuel count = .error e) :
    e = (if allow = false then messagePlain else messageHint) ∧
    ∀ i, count ≤ i → i < 1000 →
      ∃ e1, attemptSecretSantaAssignments allow recipients (shuffles i) = .error e1 := by
  induction fuel generalizing count with
  | zero => simp [generateLoop] at h
  | succ fuel ih =>
    have hc : count < 1000 := by omega
    unfold generateLoop at h
    rw [if_pos hc] at h
    split at h
    · simp at h
    · rename_i e1 he
      by_cases h1 : count + 1 = 1000
      · simp only [h1, if_true] at h
        constructor
        · split at h <;> rename_i ha <;> simp only [Except.error.injEq] at h <;>
            simp [ha, h.symm]
        · intro i hi hi2
          have : i = count := by omega
          subst this
          exact ⟨e1, he⟩
      · simp only [h1, if_false] at h
        obtain ⟨h2, h3⟩ := ih (count + 1) (by omega) h
        refine ⟨h2, ?_⟩
        intro i hi hi2
        by_cases hic : i = count
        · subst hic; exact ⟨e1, he⟩
        · exact h3 i (by omega) hi2

theorem generateLoop_congr (allow : Bool) (recipients : GoMap)
    (shuffles1 shuffles2 : Nat → Shuffler) (fuel count : Nat)
    (h : ∀ i, count ≤ i → i < 1000 → shuffles1 i = shuffles2 i) :
    generateLoop allow recipients shuffles1 fuel count =
      generateLoop allow recipients shuffles2 fuel count := by
  induction fuel generalizing count with
  | zero => rfl
  | succ fuel ih =>
    unfold generateLoop
    by_cases hc : count < 1000
    · rw [if_pos hc, if_pos hc, h count (Nat.le_refl _) hc,
        ih (count + 1) (fun i hi hi2 => h i (by omega) hi2)]
    · rw [if_neg hc, if_neg hc]

/-! ## Lemmas on the planned attempt -/

theorem rotationShuffle_perm (residents : GoMap) (order : List Resident) (shift : Nat)
    (horder : order.Perm (mapValues residents)) (k : Nat) (m : GoMap) :
    (rotationShuffle residents order shift k m).Perm (mapValues m) := by
  cases k with
  | zero =>
    show (if m = residents then order else mapValues m).Perm (mapValues m)
    split
    · rename_i h; rw [h]; exact horder
    · exact List.Perm.refl _
  | succ k =>
    show (if rotated order shift k ∈ mapValues m then
        rotated order shift k :: (mapValues m).erase (rotated order shift k)
      else mapValues m).Perm (mapValues m)
    split
    · rename_i h; exact (List.perm_cons_erase h).symm
    · exact List.Perm.refl _

theorem rotate_index (n s i : Nat) (hs : s < n) (hi : i < n) :
    (i + s) % n = if i + s < n then i + s else i + s - n := by
  split
  · rename_i h; exact Nat.mod_eq_of_lt h
  · rename_i h
    rw [Nat.mod_eq_sub_mod (by omega)]
    exact Nat.mod_eq_of_lt (by omega)

theorem rotated_index_ne (n s i j : Nat) (hs : s < n) (hi : i < n) (hj : j < n)
    (hij : i ≠ j) : (i + s) % n ≠ (j + s) % n := by
  rw [rotate_index n s i hs hi, rotate_index n s j hs hj]
  split <;> split <;> omega

theorem rotated_index_lt (n s i : Nat) (hn : 0 < n) : (i + s) % n < n :=
  Nat.mod_lt _ hn

theorem ids_ne_of_index_ne (order : List Resident)
    (hnd : (order.map (fun r => r.Person.Id)).Nodup) (a b : Nat)
    (ha : a < order.length) (hb : b < order.length) (hab : a ≠ b) :
    (order.getD a default).Person.Id ≠ (order.getD b default).Person.Id := by
  rw [List.getD_eq_getElem _ _ ha, List.getD_eq_getElem _ _ hb]
  intro h
  have ha2 : a < (order.map (fun r => r.Person.Id)).length := by simpa using ha
  have hb2 : b < (order.map (fun r => r.Person.Id)).length := by simpa using hb
  have h2 : (order.map (fun r => r.Person.Id))[a] = (order.map (fun r => r.Person.Id))[b] := by
    rw [List.getElem_map, List.getElem_map]; exact h
  exact hab ((List.Nodup.getElem_inj_iff hnd).1 h2)

theorem countP_ge_of_range (p : Resident → Bool) (order : List Resident) (a b : Nat)
    (hab : a ≤ b) (hb : b < order.length)
    (h : ∀ x, a ≤ x → x ≤ b → p (order.getD x default) = true) :
    b - a + 1 ≤ order.countP p := by
  have hsub : ((order.drop a).take (b - a + 1)).Sublist order :=
    (List.take_sublist _ _).trans (List.drop_sublist _ _)
  have hlen : ((order.drop a).take (b - a + 1)).length = b - a + 1 := by
    rw [List.length_take, List.length_drop]; omega
  have hall : ((order.drop a).take (b - a + 1)).countP p
      = ((order.drop a).take (b - a + 1)).length := by
    rw [List.countP_eq_length]
    intro e he
    obtain ⟨x, hx, rfl⟩ := List.mem_iff_getElem.1 he
    rw [List.getElem_take, List.getElem_drop]
    rw [hlen] at hx
    have := h (a + x) (by omega) (by omega)
    rwa [List.getD_eq_getElem _ _ (by omega)] at this
  calc b - a + 1 = ((order.drop a).take (b - a + 1)).countP p := by rw [hall, hlen]
    _ ≤ order.countP p := hsub.countP_le p

theorem rotation_run (allow : Bool) (residents : GoMap) (order : List Resident) (shift : Nat)
    (hnd : (order.map (fun r => r.Person.Id)).Nodup)
    (hs0 : 0 < shift) (hs : shift < order.length)
    (hrule : ∀ i, i < order.length → allow = false →
      (order.getD i default).Address.Address ≠ (rotated order shift i).Address.Address)
    (d k : Nat) (hk : k + d = order.length) (copy : GoMap)
    (acc : List SecretSantaAssignment)
    (hcopy : ∀ i, k ≤ i → i < order.length →
      ((rotated order shift i).Person.Id, rotated order shift i) ∈ copy) :
    ∃ out, giverLoop allow residents (rotationShuffle residents order shift)
        (order.drop k) k copy acc = .ok out ∧ out.length = acc.length + d := by
  induction d generalizing k copy acc with
  | zero =>
    have hk2 : order.length ≤ k := by omega
    rw [List.drop_eq_nil_of_le hk2]
    exact ⟨acc, rfl, rfl⟩
  | succ d ih =>
    have hklt : k < order.length := by omega
    have hentry := hcopy k (Nat.le_refl _) hklt
    have hmem : rotated order shift k ∈ mapValues copy :=
      List.mem_map.2 ⟨_, hentry, rfl⟩
    have hne : copy.length ≠ 0 := by
      intro h0
      rw [List.length_eq_zero.1 h0] at hentry
      cases hentry
    have hsh : rotationShuffle residents order shift (k + 1) copy
        = rotated order shift k :: (mapValues copy).erase (rotated order shift k) := by
      show (if rotated order shift k ∈ mapValues copy then
        rotated order shift k :: (mapValues copy).erase (rotated order shift k)
        else mapValues copy) = _
      rw [if_pos hmem]
    have hget : order[k] = order.getD k default := (List.getD_eq_getElem _ _ hklt).symm
    have h1 : ¬ order[k].Person.Id = (rotated order shift k).Person.Id := by
      rw [hget]
      unfold rotated
      have hlt := rotated_index_lt order.length shift k (by omega)
      apply ids_ne_of_index_ne order hnd k _ hklt hlt
      rw [rotate_index order.length shift k hs hklt]
      split <;> omega
    have h2 : ¬ mapContains copy (rotated order shift k).Person.Id = false := by
      rw [mapContains_false_iff, not_not]
      exact List.mem_map.2 ⟨_, hentry, rfl⟩
    have h3 : ¬ (allow = false ∧
        order[k].Address.Address = (rotated order shift k).Address.Address) := by
      rintro ⟨ha, hb⟩
      rw [hget] at hb
      exact hrule k hklt ha hb
    rw [List.drop_eq_getElem_cons hklt]
    unfold giverLoop
    rw [if_neg hne, hsh]
    unfold recipientLoop
    rw [if_neg h1, if_neg h2, if_neg h3]
    simp only
    obtain ⟨out, hout, hlen⟩ := ih (k + 1) (by omega)
      (mapDelete copy (rotated order shift k).Person.Id)
      (acc ++ [makeAssignment residents order[k] (rotated order shift k)])
      (by
        intro i hi hi2
        rw [mem_mapDelete]
        refine ⟨hcopy i (by omega) hi2, ?_⟩
        show (rotated order shift i).Person.Id ≠ (rotated order shift k).Person.Id
        unfold rotated
        exact ids_ne_of_index_ne order hnd _ _
          (rotated_index_lt _ _ _ (by omega)) (rotated_index_lt _ _ _ (by omega))
          (rotated_index_ne _ _ _ _ hs hi2 hklt (by omega)))
    refine ⟨out, hout, ?_⟩
    rw [hlen]
    simp
    omega

/-- The planned attempt succeeds: over an index that stores its residents under
their ids, with an order that is a permutation of the index and a shift that
never pairs two residents of one street address when the flag is false, the
attempt with the shuffles `rotationShuffle` returns one assignment per resident. -/
theorem rotation_attempt (allow : Bool) (residents : GoMap) (order : List Resident)
    (shift : Nat) (hn : (mapKeys residents).Nodup) (hkey : KeyedById residents)
    (horder : order.Perm (mapValues residents))
    (hs0 : 0 < shift) (hs : shift < order.length)
    (hrule : ∀ i, i < order.length → allow = false →
      (order.getD i default).Address.Address ≠ (rotated order shift i).Address.Address) :
    ∃ assignments,
      attemptSecretSantaAssignments allow residents (rotationShuffle residents order shift)
        = .ok assignments ∧ assignments.length = residents.length := by
  have hids : (mapValues residents).map (fun r => r.Person.Id) = mapKeys residents := by
    simp only [mapValues, mapKeys, List.map_map]
    exact List.map_congr_left (fun e he => hkey e he)
  have hnd : (order.map (fun r => r.Person.Id)).Nodup := by
    rw [(horder.map _).nodup_iff, hids]; exact hn
  have hlen : order.length = residents.length := by
    rw [horder.length_eq]; simp [mapValues]
  have hcopy : ∀ i, 0 ≤ i → i < order.length →
      ((rotated order shift i).Person.Id, rotated order shift i) ∈ residents := by
    intro i _ _
    have hlt := rotated_index_lt order.length shift i (by omega)
    have hin : rotated order shift i ∈ order := by
      unfold rotated
      rw [List.getD_eq_getElem _ _ hlt]
      exact List.getElem_mem _
    obtain ⟨e, he, hev⟩ := List.mem_map.1 (horder.subset hin)
    have hk := hkey e he
    rw [← hev, hk]
    exact he
  obtain ⟨out, hout, hol⟩ := rotation_run allow residents order shift hnd hs0 hs hrule
    order.length 0 (by omega) residents [] hcopy
  refine ⟨out, ?_, by rw [hol, ← hlen]; simp⟩
  unfold attemptSecretSantaAssignments
  have h0 : rotationShuffle residents order shift 0 residents = order := by
    show (if residents = residents then order else mapValues residents) = order
    rw [if_pos rfl]
  simp only [h0]
  simpa using hout

theorem byStreet_perm (residents : GoMap) : (byStreet residents).Perm (mapValues residents) :=
  List.perm_insertionSort _ _

theorem byStreet_le (residents : GoMap) (a b : Nat) (hab : a ≤ b)
    (hb : b < (byStreet residents).length) :
    ((byStreet residents).getD a default).Address.Address
      ≤ ((byStreet residents).getD b default).Address.Address := by
  have htotal : IsTotal Resident (fun a b => a.Address.Address ≤ b.Address.Address) :=
    ⟨fun a b => le_total _ _⟩
  have htrans : IsTrans Resident (fun a b => a.Address.Address ≤ b.Address.Address) :=
    ⟨fun a b c h1 h2 => le_trans h1 h2⟩
  have hsorted : (byStreet residents).Sorted
      (fun a b => a.Address.Address ≤ b.Address.Address) :=
    List.sorted_insertionSort _ _
  rcases Nat.eq_or_lt_of_le hab with h | h
  · rw [h]
  · rw [List.getD_eq_getElem _ _ (by omega), List.getD_eq_getElem _ _ hb]
    exact List.pairwise_iff_getElem.1 hsorted a b (by omega) hb h

theorem byStreet_between (residents : GoMap) (a b x : Nat) (hax : a ≤ x) (hxb : x ≤ b)
    (hb : b < (byStreet residents).length)
    (h : ((byStreet residents).getD a default).Address.Address
      = ((byStreet residents).getD b default).Address.Address) :
    ((byStreet residents).getD x default).Address.Address
      = ((byStreet residents).getD a default).Address.Address := by
  apply le_antisymm
  · rw [h]; exact byStreet_le residents x b hxb hb
  · exact byStreet_le residents a x hax (by omega)

/-- Ordered by street address and shifted by half the number of residents, no
giver meets a resident of its own street address, provided no street address
houses more than half of the residents. -/
theorem byStreet_rule (residents : GoMap)
    (hbal : ∀ r ∈ mapValues residents,
      2 * (mapValues residents).countP
        (fun q => decide (q.Address.Address = r.Address.Address)) ≤ residents.length)
    (i : Nat) (hi : i < (byStreet residents).length) :
    ((byStreet residents).getD i default).Address.Address
      ≠ (rotated (byStreet residents) ((byStreet residents).length / 2) i).Address.Address := by
  intro heq
  have hlen : (byStreet residents).length = residents.length := by
    rw [(byStreet_perm residents).length_eq]; simp [mapValues]
  have hmem : (byStreet residents).getD i default ∈ mapValues residents := by
    rw [List.getD_eq_getElem _ _ hi]
    exact (byStreet_perm residents).subset (List.getElem_mem _)
  have hb := hbal _ hmem
  rw [← (byStreet_perm residents).countP_eq] at hb
  unfold rotated at heq
  have hs : (byStreet residents).length / 2 < (byStreet residents).length := by omega
  rw [rotate_index _ _ i hs hi] at heq
  split at heq
  · rename_i hlt
    have hge := countP_ge_of_range
      (fun q => decide (q.Address.Address
        = ((byStreet residents).getD i default).Address.Address))
      (byStreet residents) i (i + (byStreet residents).length / 2) (by omega) hlt
      (fun x hx1 hx2 => by
        simpa using byStreet_between residents i _ x hx1 hx2 hlt heq)
    omega
  · rename_i hlt
    have hge := countP_ge_of_range
      (fun q => decide (q.Address.Address
        = ((byStreet residents).getD i default).Address.Address))
      (byStreet residents) (i + (byStreet residents).length / 2 - (byStreet residents).length)
      i (by omega) hi
      (fun x hx1 hx2 => by
        have := byStreet_between residents _ i x hx1 hx2 hi heq.symm
        simpa using this.trans heq.symm)
    omega

theorem listed_rule (residents : GoMap) (i : Nat) (_hi : i < (mapValues residents).length)
    (h : true = false) :
    ((mapValues residents).getD i default).Address.Address
      ≠ (rotated (mapValues residents) 1 i).Address.Address := by
  cases h

/-- The planned attempt succeeds on the first try of the retry loop: with at
least 2 residents and, when the flag is false, no street address housing more
than half of them, some shuffles that are permutations, each a result of
`randomSequenceFromMapValues`, make `generateSecretSantaAssignments` return one
assignment per resident. -/
theorem planned_generate_succeeds (allow : Bool) (addresses : List Address)
    (htwo : 2 ≤ (createResidentMap addresses).length)
    (hbal : allow = false → ∀ r ∈ mapValues (createResidentMap addresses),
      2 * (mapValues (createResidentMap addresses)).countP
        (fun q => decide (q.Address.Address = r.Address.Address))
        ≤ (createResidentMap addresses).length) :
    ∃ shuffles : Nat → Shuffler,
      (∀ i k m, (shuffles i k m).Perm (mapValues m)) ∧
      (∀ i k m, KeyedById m → ∃ (visit : GoMap) (draws : Nat → Nat), visit.Perm m ∧
        randomSequenceFromMapValues visit draws = shuffles i k m) ∧
      ∃ assignments,
        generateSecretSantaAssignments allow addresses shuffles = .ok assignments ∧
        assignments.length = (createResidentMap addresses).length := by
  have hn := nodup_createResidentMap addresses
  have hk := keyedById_createResidentMap addresses
  have hplan : ∃ (order : List Resident) (shift : Nat),
      order.Perm (mapValues (createResidentMap addresses)) ∧
      ∃ assignments,
        attemptSecretSantaAssignments allow (createResidentMap addresses)
          (rotationShuffle (createResidentMap addresses) order shift) = .ok assignments ∧
        assignments.length = (createResidentMap addresses).length := by
    cases allow with
    | true =>
      have hl : (mapValues (createResidentMap addresses)).length
          = (createResidentMap addresses).length := by simp [mapValues]
      exact ⟨mapValues (createResidentMap addresses), 1, List.Perm.refl _,
        rotation_attempt true _ _ 1 hn hk (List.Perm.refl _) (by decide) (by omega)
          (fun i hi h => listed_rule _ i hi h)⟩
    | false =>
      have hl : (byStreet (createResidentMap addresses)).length
          = (createResidentMap addresses).length := by
        rw [(byStreet_perm _).length_eq]; simp [mapValues]
      exact ⟨byStreet (createResidentMap addresses),
        (byStreet (createResidentMap addresses)).length / 2, byStreet_perm _,
        rotation_attempt false _ _ _ hn hk (byStreet_perm _) (by omega) (by omega)
          (fun i hi _ => byStreet_rule _ (hbal rfl) i hi)⟩
  obtain ⟨order, shift, horder, assignments, hok, hlen⟩ := hplan
  refine ⟨fun _ => rotationShuffle (createResidentMap addresses) order shift,
    fun _ k m => rotationShuffle_perm _ order shift horder k m,
    fun _ k m hm => randomSequenceFromMapValues_realizes m hm _
      (rotationShuffle_perm _ order shift horder k m), assignments, ?_, hlen⟩
  exact generateLoop_first_ok allow (createResidentMap addresses)
    (fun _ => rotationShuffle (createResidentMap addresses) order shift) 1000 0 0
    assignments rfl (Nat.le_refl _) (by decide) hok
    (fun j _ hj => absurd hj (Nat.not_lt_zero j))

/-! ## Lemmas on the sample data -/

theorem listedOrder_perm (k : Nat) (m : GoMap) : (listedOrder k m).Perm (mapValues m) :=
  List.Perm.refl _

theorem attempt_pairedA1B1 (allow : Bool) :
    attemptSecretSantaAssignments allow (createResidentMap [addressA1, addressB]) listedOrder
      = .ok pairedA1B1 := by
  cases allow <;> rfl

/-! ## Further lemmas on the resident index -/

theorem mapInsert_of_not_mem (m : GoMap) (k : String) (v : Resident)
    (h : k ∉ mapKeys m) : mapInsert m k v = m ++ [(k, v)] := by
  induction m with
  | nil => rfl
  | cons e rest ih =>
    have h1 : ¬ e.1 = k := by
      intro he
      exact h (by rw [← he]; exact List.mem_cons_self _ _)
    have h2 : k ∉ mapKeys rest := fun hk => h (List.mem_cons_of_mem _ hk)
    simp only [mapInsert, h1, if_false, List.cons_append, ih h2]

theorem mapIndex_of_mem (m : GoMap) (k : String) (v : Resident)
    (hn : (mapKeys m).Nodup) (h : (k, v) ∈ m) : mapIndex m k = v := by
  induction m with
  | nil => cases h
  | cons e rest ih =>
    have hn2 : e.1 ∉ mapKeys rest ∧ (mapKeys rest).Nodup := by simpa [mapKeys] using hn
    unfold mapIndex
    rcases List.mem_cons.1 h with h | h
    · rw [← h]; simp
    · have hne : ¬ e.1 = k := by
        intro he
        apply hn2.1
        rw [he]
        exact List.mem_map.2 ⟨_, h, rfl⟩
      rw [if_neg hne]
      exact ih hn2.2 h

theorem addResidents_eq (a : Address) (people : List Person) (m : GoMap)
    (h : (mapKeys m ++ people.map (fun p => p.Id)).Nodup) :
    addResidents a people m
      = m ++ people.map (fun p => (p.Id, ({ Person := p, Address := a } : Resident))) := by
  induction people generalizing m with
  | nil => simp [addResidents]
  | cons p rest ih =>
    have hp : p.Id ∉ mapKeys m := by
      intro hm
      have := (List.nodup_append.1 h).2.2
      exact this hm (List.mem_cons_self _ _)
    unfold addResidents
    rw [mapInsert_of_not_mem m _ _ hp, ih]
    · simp
    · have : mapKeys (m ++ [(p.Id, ({ Person := p, Address := a } : Resident))])
          = mapKeys m ++ [p.Id] := by simp [mapKeys]
      rw [this, List.append_assoc]
      simpa using h

theorem allResidents_cons (a : Address) (rest : List Address) :
    allResidents (a :: rest)
      = a.Residents.map (fun p => ({ Person := p, Address := a } : Resident))
        ++ allResidents rest := by
  simp [allResidents]

theorem addAddresses_eq (addresses : List Address) (m : GoMap)
    (h : (mapKeys m ++ (allPersons addresses).map (fun p => p.Id)).Nodup) :
    addAddresses addresses m
      = m ++ (allResidents addresses).map (fun r => (r.Person.Id, r)) := by
  induction addresses generalizing m with
  | nil => simp [addAddresses, allResidents]
  | cons a rest ih =>
    unfold addAddresses
    rw [allPersons_cons, List.map_append, ← List.append_assoc] at h
    rw [addResidents_eq a a.Residents m (List.Nodup.of_append_left h), ih]
    · rw [allResidents_cons]
      simp [List.map_append, Function.comp_def]
    · have : mapKeys (m ++ a.Residents.map
          (fun p => (p.Id, ({ Person := p, Address := a } : Resident))))
          = mapKeys m ++ a.Residents.map (fun p => p.Id) := by
        simp [mapKeys, Function.comp_def]
      rw [this]
      exact h

theorem createResidentMap_eq (addresses : List Address)
    (h : ((allPersons addresses).map (fun p => p.Id)).Nodup) :
    createResidentMap addresses
      = (allResidents addresses).map (fun r => (r.Person.Id, r)) := by
  unfold createResidentMap
  rw [addAddresses_eq addresses [] (by simpa [mapKeys] using h)]
  simp

theorem allResidents_persons (addresses : List Address) :
    (allResidents addresses).map (fun r => r.Person) = allPersons addresses := by
  induction addresses with
  | nil => rfl
  | cons a rest ih =>
    rw [allResidents_cons, allPersons_cons, List.map_append, ih, List.map_map]
    congr 1
    exact List.map_id _

theorem createResidentMap_of_no_residents (addresses : List Address)
    (h : ∀ a ∈ addresses, a.Residents = []) : createResidentMap addresses = [] := by
  have haux : ∀ (l : List Address), (∀ a ∈ l, a.Residents = []) → addAddresses l [] = [] := by
    intro l
    induction l with
    | nil => intro _; rfl
    | cons a rest ih =>
      intro hl
      unfold addAddresses
      rw [hl a (List.mem_cons_self _ _)]
      exact ih (fun x hx => hl x (List.mem_cons_of_mem _ hx))
  exact haux addresses h

/-! ## Further lemmas on the assignment loops -/

theorem attempt_of_empty (allow : Bool) (shuffle : Shuffler) :
    attemptSecretSantaAssignments allow [] shuffle = .ok [] := by
  unfold attemptSecretSantaAssignments
  simp only
  cases shuffle 0 [] with
  | nil => rfl
  | cons f rest => rfl

theorem attempt_ids_ne (allow : Bool) (residents : GoMap) (shuffle : Shuffler)
    (assignments : List SecretSantaAssignment)
    (hok : attemptSecretSantaAssignments allow residents shuffle = .ok assignments) :
    ∀ a ∈ assignments, a.From.Person.Id ≠ a.To.Person.Id ∧
      (allow = false → a.From.Address.Address ≠ a.To.Address.Address) := by
  intro a ha
  obtain ⟨pairs, hp, rfl, _⟩ := attempt_ok allow residents shuffle assignments hok
  obtain ⟨p, hpm, rfl⟩ := List.mem_map.1 ha
  rw [makeAssignment_From, makeAssignment_To]
  exact picks_rules allow shuffle 0 residents pairs hp p hpm

theorem attempt_length (allow : Bool) (residents : GoMap) (shuffle : Shuffler)
    (assignments : List SecretSantaAssignment)
    (hn : (mapKeys residents).Nodup)
    (hperm : (shuffle 0 residents).Perm (mapValues residents))
    (hok : attemptSecretSantaAssignments allow residents shuffle = .ok assignments) :
    assignments.length = residents.length := by
  have h := congrArg List.length (attempt_froms allow residents shuffle assignments hn hperm hok)
  rw [List.length_map, hperm.length_eq] at h
  simpa [mapValues] using h

/-- With shuffles that are permutations, the receivers of a successful attempt
are a permutation of the residents. -/
theorem attempt_tos_perm (allow : Bool) (residents : GoMap) (shuffle : Shuffler)
    (assignments : List SecretSantaAssignment)
    (hn : (mapKeys residents).Nodup) (hk : KeyedById residents)
    (hperm : ∀ k m, (shuffle k m).Perm (mapValues m))
    (hok : attemptSecretSantaAssignments allow residents shuffle = .ok assignments) :
    (assignments.map (fun a => a.To)).Perm (mapValues residents) ∧
    (assignments.map (fun a => a.To.Person.Id)).Nodup := by
  have hlen := attempt_length allow residents shuffle assignments hn (hperm 0 residents) hok
  obtain ⟨pairs, hp, has, _⟩ := attempt_ok allow residents shuffle assignments hok
  have hto : assignments.map (fun a => a.To) = pairs.map Prod.snd := by
    rw [has, List.map_map]
    exact List.map_congr_left (fun p _ => makeAssignment_To residents p.1 p.2)
  have hids : assignments.map (fun a => a.To.Person.Id)
      = pairs.map (fun p => p.2.Person.Id) := by
    rw [has, List.map_map]
    exact List.map_congr_left (fun p _ => by
      show (makeAssignment residents p.1 p.2).To.Person.Id = p.2.Person.Id
      rw [makeAssignment_To])
  have hnd := picks_nodup allow shuffle 0 residents pairs hp
  have hnd2 : (pairs.map Prod.snd).Nodup := by
    have h2 : pairs.map (fun p => p.2.Person.Id)
        = (pairs.map Prod.snd).map (fun r => r.Person.Id) := by
      rw [List.map_map]; rfl
    rw [h2] at hnd
    exact List.Nodup.of_map _ hnd
  have hent := picks_entries allow shuffle 0 residents residents pairs
    (fun j m _ r hr _ => (hperm j m).subset hr) (List.Sublist.refl _) hk hp
  have hsub : pairs.map Prod.snd ⊆ mapValues residents := by
    intro t ht
    obtain ⟨p, hpm, rfl⟩ := List.mem_map.1 ht
    exact List.mem_map.2 ⟨_, hent p hpm, rfl⟩
  refine ⟨?_, by rw [hids]; exact hnd⟩
  rw [hto]
  apply (List.subperm_of_subset hnd2 hsub).perm_of_length_le
  have : (pairs.map Prod.snd).length = assignments.length := by
    rw [← hto, List.length_map]
  rw [this, hlen]
  simp [mapValues]

/-! ## Lemmas on the order of the checks -/

theorem validateResidents_eq_checks (rm : GoMap) (a : Address) (people : List Person)
    (seen : List String) :
    validateResidents rm a people seen
      = match (residentsChecks rm a seen people).findSome? id with
        | some e => .error e
        | none => .ok ((people.map (fun p => p.Id)).reverse ++ seen) := by
  induction people generalizing seen with
  | nil => rfl
  | cons p rest ih =>
    unfold validateResidents residentsChecks personChecks
    simp only [len_le_zero, len_pos]
    by_cases h1 : p.Id = ""
    · simp [h1]
    by_cases h2 : p.Id ∈ seen
    · simp [h1, h2]
    by_cases h3 : p.FirstName = ""
    · simp [h1, h2, h3]
    by_cases h4 : p.LastName = ""
    · simp [h1, h2, h3, h4]
    by_cases h5 : p.PublicName = ""
    · simp [h1, h2, h3, h4, h5]
    by_cases h6 : p.Email = ""
    · simp [h1, h2, h3, h4, h5, h6]
    by_cases h7 : p.ActorId = ""
    · simp [h1, h2, h3, h4, h5, h6, h7, ih]
    by_cases h8 : p.ActorId = p.Id
    · simp [h1, h2, h3, h4, h5, h6, h7, h8]
    by_cases h9 : mapContains rm p.ActorId = false
    · simp [h1, h2, h3, h4, h5, h6, h7, h8, h9]
    · simp [h1, h2, h3, h4, h5, h6, h7, h8, h9, ih]

theorem validateAddresses_eq_checks (rm : GoMap) (addresses : List Address)
    (seen : List String) :
    validateAddresses rm addresses seen
      = match (datasetChecks rm seen addresses).findSome? id with
        | some e => .error e
        | none => .ok () := by
  induction addresses generalizing seen with
  | nil => rfl
  | cons a rest ih =>
    unfold validateAddresses datasetChecks addressChecks
    simp only [len_le_zero]
    by_cases h1 : a.Address = ""
    · simp [h1]
    by_cases h2 : a.City = ""
    · simp [h1, h2]
    by_cases h3 : a.State = ""
    · simp [h1, h2, h3]
    by_cases h4 : a.Zipcode = ""
    · simp [h1, h2, h3, h4]
    rw [validateResidents_eq_checks]
    cases hr : (residentsChecks rm a seen a.Residents).findSome? id with
    | some e => simp [h1, h2, h3, h4, hr, List.findSome?_append]
    | none => simp [h1, h2, h3, h4, hr, ih, List.findSome?_append]

/-! ## Lemmas on the pairing step and the working copy -/

theorem survives_iff (allow : Bool) (copy : GoMap) (f t : Resident) :
    survives allow copy f t = true ↔
      f.Person.Id ≠ t.Person.Id ∧ mapContains copy t.Person.Id = true ∧
        (allow = false → f.Address.Address ≠ t.Address.Address) := by
  unfold survives
  cases allow <;> simp [and_assoc]

theorem survives_false_iff (allow : Bool) (copy : GoMap) (f t : Resident) :
    survives allow copy f t = false ↔
      (f.Person.Id = t.Person.Id ∨ mapContains copy t.Person.Id = false ∨
        (allow = false ∧ f.Address.Address = t.Address.Address)) := by
  rw [← Bool.not_eq_true, survives_iff]
  by_cases h1 : f.Person.Id = t.Person.Id
  · simp [h1]
  by_cases h2 : mapContains copy t.Person.Id = true
  · simp [h1, h2]
  · simp [h1, h2]

theorem recipientLoop_eq_firstSurvivor (allow : Bool) (residents : GoMap) (f : Resident)
    (copy : GoMap) (acc : List SecretSantaAssignment) (cands : List Resident) :
    recipientLoop allow residents f copy acc cands
      = (firstSurvivor allow copy f cands).map
          (fun t => (mapDelete copy t.Person.Id, acc ++ [makeAssignment residents f t])) := by
  induction cands with
  | nil => rfl
  | cons t rest ih =>
    unfold recipientLoop firstSurvivor
    rw [List.find?_cons]
    by_cases h1 : f.Person.Id = t.Person.Id
    · have hs : survives allow copy f t = false :=
        (survives_false_iff allow copy f t).2 (Or.inl h1)
      rw [if_pos h1, hs]
      exact ih
    by_cases h2 : mapContains copy t.Person.Id = false
    · have hs : survives allow copy f t = false :=
        (survives_false_iff allow copy f t).2 (Or.inr (Or.inl h2))
      rw [if_neg h1, if_pos h2, hs]
      exact ih
    by_cases h3 : allow = false ∧ f.Address.Address = t.Address.Address
    · have hs : survives allow copy f t = false :=
        (survives_false_iff allow copy f t).2 (Or.inr (Or.inr h3))
      rw [if_neg h1, if_neg h2, if_pos h3, hs]
      exact ih
    · have hs : survives allow copy f t = true :=
        (survives_iff allow copy f t).2
          ⟨h1, by simpa using h2, fun ha hadd => h3 ⟨ha, hadd⟩⟩
      rw [if_neg h1, if_neg h2, if_neg h3, hs]
      rfl

theorem workingCopyAfter_cons (copy : GoMap) (t : Resident) (ts : List Resident) :
    workingCopyAfter copy (t :: ts) = workingCopyAfter (mapDelete copy t.Person.Id) ts := rfl

theorem workingCopyAfter_eq_filter (copy : GoMap) (receivers : List Resident) :
    workingCopyAfter copy receivers
      = copy.filter (fun e => decide (e.1 ∉ receivers.map (fun t => t.Person.Id))) := by
  induction receivers generalizing copy with
  | nil => simp [workingCopyAfter]
  | cons t ts ih =>
    rw [workingCopyAfter_cons, ih]
    unfold mapDelete
    rw [List.filter_filter]
    apply List.filter_congr
    intro e _
    by_cases h1 : e.1 = t.Person.Id
    · simp [h1]
    · simp [h1]

theorem served_picks (allow : Bool) (shuffle : Shuffler) (k : Nat) (copy : GoMap)
    (pairs : List (Resident × Resident)) (h : Served allow shuffle k copy pairs) :
    Picks allow shuffle k copy pairs := by
  induction pairs generalizing k copy with
  | nil => trivial
  | cons p rest ih =>
    obtain ⟨_, hfirst, hrest⟩ := h
    have hmem := List.mem_of_find?_eq_some hfirst
    have hs := (survives_iff allow copy p.1 p.2).1 (List.find?_some hfirst)
    exact ⟨hmem, hs.1, hs.2.1, hs.2.2, ih (k + 1) _ hrest⟩

theorem served_length (allow : Bool) (shuffle : Shuffler) (k : Nat) (copy : GoMap)
    (pairs : List (Resident × Resident)) (hn : (mapKeys copy).Nodup)
    (h : Served allow shuffle k copy pairs) :
    (workingCopyAfter copy (pairs.map Prod.snd)).length + pairs.length = copy.length := by
  induction pairs generalizing k copy with
  | nil => rfl
  | cons p rest ih =>
    obtain ⟨_, hfirst, hrest⟩ := h
    have hs := (survives_iff allow copy p.1 p.2).1 (List.find?_some hfirst)
    have h1 := ih (k + 1) _ (nodup_mapDelete copy p.2.Person.Id hn) hrest
    have h2 := length_mapDelete copy p.2.Person.Id hn hs.2.1
    rw [List.map_cons, workingCopyAfter_cons, List.length_cons]
    omega

theorem giverLoop_step (allow : Bool) (residents : GoMap) (shuffle : Shuffler)
    (f t : Resident) (fs : List Resident) (k : Nat) (copy : GoMap)
    (acc : List SecretSantaAssignment) (hne : copy ≠ [])
    (hfirst : firstSurvivor allow copy f (shuffle (k + 1) copy) = some t) :
    giverLoop allow residents shuffle (f :: fs) k copy acc
      = giverLoop allow residents shuffle fs (k + 1) (mapDelete copy t.Person.Id)
          (acc ++ [makeAssignment residents f t]) := by
  have hlen : ¬ copy.length = 0 := fun h0 => hne (List.length_eq_zero.1 h0)
  conv_lhs => unfold giverLoop
  rw [if_neg hlen, recipientLoop_eq_firstSurvivor, hfirst]
  rfl

/-- The state of the giver loop once the givers of `pairs` have been served. -/
theorem giverLoop_served (allow : Bool) (residents : GoMap) (shuffle : Shuffler)
    (pairs : List (Resident × Resident)) (rest : List Resident) (k : Nat) (copy : GoMap)
    (acc : List SecretSantaAssignment) (h : Served allow shuffle k copy pairs) :
    giverLoop allow residents shuffle (pairs.map Prod.fst ++ rest) k copy acc
      = giverLoop allow residents shuffle rest (k + pairs.length)
          (workingCopyAfter copy (pairs.map Prod.snd))
          (acc ++ pairs.map (fun p => makeAssignment residents p.1 p.2)) := by
  induction pairs generalizing k copy acc with
  | nil => simp [workingCopyAfter]
  | cons p ps ih =>
    obtain ⟨hne, hfirst, hrest⟩ := h
    have hk : k + 1 + ps.length = k + (ps.length + 1) := by omega
    rw [List.map_cons, List.cons_append,
      giverLoop_step allow residents shuffle p.1 p.2 _ k copy acc hne hfirst,
      ih (k + 1) _ _ hrest, List.map_cons, workingCopyAfter_cons, List.length_cons,
      List.map_cons, List.append_assoc, hk]
    rfl

/-- Every run of the giver loop serves a prefix of its givers and then either
returns (no giver is left, or the working copy is empty) or fails at a giver
that meets a non-empty working copy without a surviving candidate. -/
theorem giverLoop_trace (allow : Bool) (residents : GoMap) (shuffle : Shuffler)
    (givers : List Resident) (k : Nat) (copy : GoMap) (acc : List SecretSantaAssignment) :
    ∃ (pairs : List (Resident × Resident)) (rest : List Resident),
      givers = pairs.map Prod.fst ++ rest ∧ Served allow shuffle k copy pairs ∧
      ((giverLoop allow residents shuffle givers k copy acc
          = .ok (acc ++ pairs.map (fun p => makeAssignment residents p.1 p.2)) ∧
        (rest = [] ∨ workingCopyAfter copy (pairs.map Prod.snd) = [])) ∨
       (giverLoop allow residents shuffle givers k copy acc
          = .error "Unable to find a pairing" ∧
        workingCopyAfter copy (pairs.map Prod.snd) ≠ [] ∧
        ∃ g tail, rest = g :: tail ∧
          firstSurvivor allow (workingCopyAfter copy (pairs.map Prod.snd)) g
            (shuffle (k + pairs.length + 1) (workingCopyAfter copy (pairs.map Prod.snd)))
            = none)) := by
  induction givers generalizing k copy acc with
  | nil =>
    exact ⟨[], [], rfl, trivial, Or.inl ⟨by simp [giverLoop], Or.inl rfl⟩⟩
  | cons f fs ih =>
    by_cases hlen : copy.length = 0
    · refine ⟨[], f :: fs, rfl, trivial, Or.inl ⟨?_, Or.inr ?_⟩⟩
      · unfold giverLoop
        rw [if_pos hlen]
        simp
      · exact List.length_eq_zero.1 hlen
    · have hne : copy ≠ [] := fun h0 => hlen (by rw [h0]; rfl)
      cases hfirst : firstSurvivor allow copy f (shuffle (k + 1) copy) with
      | none =>
        refine ⟨[], f :: fs, rfl, trivial, Or.inr ⟨?_, hne, f, fs, rfl, hfirst⟩⟩
        unfold giverLoop
        rw [if_neg hlen, recipientLoop_eq_firstSurvivor, hfirst]
        rfl
      | some t =>
        obtain ⟨pairs, rest, hg, hserved, hres⟩ :=
          ih (k + 1) (mapDelete copy t.Person.Id) (acc ++ [makeAssignment residents f t])
        have hstep := giverLoop_step allow residents shuffle f t fs k copy acc hne hfirst
        have hk : k + ((f, t) :: pairs).length + 1 = k + 1 + pairs.length + 1 := by
          rw [List.length_cons]; omega
        refine ⟨(f, t) :: pairs, rest, by rw [hg]; rfl, ⟨hne, hfirst, hserved⟩, ?_⟩
        rw [hstep, List.map_cons, List.map_cons, workingCopyAfter_cons, hk]
        rcases hres with ⟨hok, hend⟩ | ⟨herr, hcopy, hstuck⟩
        · exact Or.inl ⟨by rw [hok, List.append_assoc]; rfl, hend⟩
        · exact Or.inr ⟨herr, hcopy, hstuck⟩

theorem giverLoop_stuck (allow : Bool) (residents : GoMap) (shuffle : Shuffler)
    (f : Resident) (fs : List Resident) (k : Nat) (copy : GoMap)
    (acc : List SecretSantaAssignment) (hne : copy ≠ [])
    (hfirst : firstSurvivor allow copy f (shuffle (k + 1) copy) = none) :
    giverLoop allow residents shuffle (f :: fs) k copy acc
      = .error "Unable to find a pairing" := by
  have hlen : ¬ copy.length = 0 := fun h0 => hne (List.length_eq_zero.1 h0)
  unfold giverLoop
  rw [if_neg hlen, recipientLoop_eq_firstSurvivor, hfirst]
  rfl

/-- While a giver remains, the working copy of a run whose giver order is a
permutation of the residents is not empty. -/
theorem served_copy_ne_nil (allow : Bool) (residents : GoMap) (shuffle : Shuffler)
    (pairs : List (Resident × Resident)) (g : Resident) (rest : List Resident)
    (hn : (mapKeys residents).Nodup)
    (hperm : (shuffle 0 residents).Perm (mapValues residents))
    (hsplit : shuffle 0 residents = pairs.map Prod.fst ++ g :: rest)
    (hserved : Served allow shuffle 0 residents pairs) :
    workingCopyAfter residents (pairs.map Prod.snd) ≠ [] := by
  intro h0
  have h1 := served_length allow shuffle 0 residents pairs hn hserved
  have h2 := hperm.length_eq
  rw [hsplit] at h2
  simp only [List.length_append, List.length_map, List.length_cons, mapValues] at h2
  rw [h0] at h1
  simp only [List.length_nil] at h1
  omega

/-! ## Lemmas on the run whose giver keys are all zero -/

/-- When `rand.Int` returns 0 for every entry, the appended elements stay behind
the zero elements the slice was made with, and the result is made of zero
residents only. -/
theorem randomSequenceFromMapValues_zero (m : GoMap) :
    randomSequenceFromMapValues m (fun _ => 0) = List.replicate m.length default := by
  unfold randomSequenceFromMapValues sortSlice
  simp only
  have hsorted : (List.replicate m.length
        ({ Order := 0, Element := default } : randElement Resident) ++
      List.zipWith (fun (_ : Nat) e => ({ Order := 0, Element := e.2 } : randElement Resident))
        (List.range m.length) m).Sorted (fun a b => a.Order ≥ b.Order) := by
    apply List.pairwise_of_forall_mem_list
    intro a ha b hb
    have hzero : ∀ x ∈ (List.replicate m.length
          ({ Order := 0, Element := default } : randElement Resident) ++
        List.zipWith (fun (_ : Nat) e => ({ Order := 0, Element := e.2 } : randElement Resident))
          (List.range m.length) m), x.Order = 0 := by
      intro x hx
      rcases List.mem_append.1 hx with h | h
      · rw [(List.mem_replicate.1 h).2]
      · obtain ⟨_, e, _, he⟩ := mem_zipWith_right _ _ _ _ h
        rw [he]
    rw [hzero a ha, hzero b hb]
  rw [List.Sorted.insertionSort_eq hsorted, List.take_left' (List.length_replicate _ _),
    List.map_replicate]

/-- When the entries are visited as listed and the keys drawn decrease from the
number of entries down to 1, the result lists the values in the order of the
map. -/
theorem randomSequenceFromMapValues_listed (m : GoMap) :
    randomSequenceFromMapValues m (fun i => m.length - i) = mapValues m := by
  obtain ⟨h1, h2⟩ := shuffle_take m (fun i => m.length - i) (fun i hi => by
    show 0 < m.length - i
    omega)
  unfold randomSequenceFromMapValues
  simp only
  rw [h1]
  generalize hs : (sortSlice (List.replicate m.length
      ({ Order := 0, Element := default } : randElement Resident) ++
      List.zipWith (fun i e => ({ Order := m.length - i, Element := e.2 } :
        randElement Resident))
        (List.range m.length) m)).filter (fun e => decide (0 < e.Order))
    = kept at h2 ⊢
  generalize hd : List.zipWith (fun i e => ({ Order := m.length - i, Element := e.2 } :
        randElement Resident)) (List.range m.length) m = drawn at h2
  have hantisymm : IsAntisymm (randElement Resident) (fun a b => a.Order > b.Order) :=
    ⟨fun a b h1 h2 => absurd h1 (by omega)⟩
  have hdrawn : drawn.Sorted (fun a b => a.Order > b.Order) := by
    rw [List.Sorted, List.pairwise_iff_getElem]
    intro i j hi hj hij
    have hj2 : j < m.length := by
      rw [← hd, List.length_zipWith, List.length_range] at hj
      omega
    simp only [← hd, List.getElem_zipWith, List.getElem_range]
    omega
  have hkept : kept.Sorted (fun a b => a.Order > b.Order) := by
    have hge : kept.Sorted (fun a b => a.Order ≥ b.Order) := by
      have htotal : IsTotal (randElement Resident) (fun a b => a.Order ≥ b.Order) :=
        ⟨fun a b => le_total _ _⟩
      have htrans : IsTrans (randElement Resident) (fun a b => a.Order ≥ b.Order) :=
        ⟨fun a b c h1 h2 => le_trans h2 h1⟩
      rw [← hs]
      exact List.Sorted.filter _ (List.sorted_insertionSort _ _)
    have hne : kept.Pairwise (fun a b => a.Order ≠ b.Order) := by
      rw [List.Perm.pairwise_iff (fun h => Ne.symm h) h2]
      exact List.Pairwise.imp (fun h => by omega) hdrawn
    exact List.Pairwise.imp (fun h => by omega) (List.Pairwise.and hge hne)
  rw [List.eq_of_perm_of_sorted h2 hkept hdrawn, ← hd, List.map_zipWith]
  exact zipWith_right_eq_map Prod.snd _ _ (by simp)

theorem zeroGiverShuffle_zero (m : GoMap) :
    zeroGiverShuffle 0 m = List.replicate m.length default :=
  randomSequenceFromMapValues_zero m

theorem zeroGiverShuffle_succ (k : Nat) (m : GoMap) :
    zeroGiverShuffle (k + 1) m = mapValues m :=
  randomSequenceFromMapValues_listed m

/-- Zero residents as givers are all served when the candidates come as listed:
each takes the first entry of the working copy. -/
theorem giverLoop_zero_givers (allow : Bool) (residents : GoMap) (shuffle : Shuffler)
    (hlisted : ∀ k m, shuffle (k + 1) m = mapValues m)
    (copy : GoMap) (k : Nat) (acc : List SecretSantaAssignment)
    (hn : (mapKeys copy).Nodup) (hkey : KeyedById copy)
    (hid : ∀ e ∈ copy, e.2.Person.Id ≠ "")
    (hstreet : ∀ e ∈ copy, e.2.Address.Address ≠ "") :
    giverLoop allow residents shuffle (List.replicate copy.length default) k copy acc
      = .ok (acc ++ (mapValues copy).map (fun t => makeAssignment residents default t)) := by
  induction copy generalizing k acc with
  | nil => simp [giverLoop, mapValues]
  | cons e rest ih =>
    have hn2 : e.1 ∉ mapKeys rest ∧ (mapKeys rest).Nodup := by simpa [mapKeys] using hn
    have hne : e :: rest ≠ [] := by simp
    have he : e.2.Person.Id = e.1 := hkey e (List.mem_cons_self _ _)
    have hfirst : firstSurvivor allow (e :: rest) default (shuffle (k + 1) (e :: rest))
        = some e.2 := by
      have hs : survives allow (e :: rest) default e.2 = true := by
        refine (survives_iff allow (e :: rest) default e.2).2 ⟨?_, ?_, fun _ => ?_⟩
        · exact fun h => hid e (List.mem_cons_self _ _) h.symm
        · rw [he]
          exact (mapContains_iff _ _).2 (List.mem_cons_self _ _)
        · exact fun h => hstreet e (List.mem_cons_self _ _) h.symm
      rw [hlisted]
      unfold firstSurvivor mapValues
      rw [List.map_cons, List.find?_cons, hs]
    have hdel : mapDelete (e :: rest) e.2.Person.Id = rest := by
      rw [he]
      unfold mapDelete
      rw [List.filter_cons]
      simp only [decide_True, Bool.not_true, Bool.false_eq_true, if_false]
      apply List.filter_eq_self.2
      intro x hx
      have hxe : x.1 ≠ e.1 := fun h => hn2.1 (by rw [← h]; exact List.mem_map.2 ⟨x, hx, rfl⟩)
      simp [hxe]
    rw [List.length_cons, List.replicate_succ,
      giverLoop_step allow residents shuffle default e.2 _ k _ acc hne hfirst, hdel,
      ih (k + 1) _ hn2.2 (fun x hx => hkey x (List.mem_cons_of_mem _ hx))
        (fun x hx => hid x (List.mem_cons_of_mem _ hx))
        (fun x hx => hstreet x (List.mem_cons_of_mem _ hx))]
    simp [mapValues]

/-- The residents of a dataset accepted by `validateData` have a non-empty id and
a non-empty street address. -/
theorem valid_ids_streets (addresses : List Address)
    (hvalid : validateData addresses = .ok ()) :
    ∀ e ∈ createResidentMap addresses, e.2.Person.Id ≠ "" ∧ e.2.Address.Address ≠ "" := by
  intro e he
  obtain ⟨haddr, hpers, _, _⟩ := (validateData_ok_iff addresses).1 hvalid
  have hr : e.2 ∈ mapValues (createResidentMap addresses) := List.mem_map.2 ⟨e, he, rfl⟩
  obtain ⟨h1, h2⟩ := values_createResidentMap addresses e.2 hr
  have hp : e.2.Person ∈ allPersons addresses := by
    unfold allPersons
    exact List.mem_flatMap.2 ⟨e.2.Address, h1, h2⟩
  exact ⟨(hpers _ hp).1, (haddr _ h1).1⟩

/-- Over the index of a dataset accepted by `validateData`, the attempt whose
giver keys are all zero returns one assignment per resident, each given by the
zero resident. -/
theorem attempt_zero_givers (allow : Bool) (addresses : List Address)
    (hvalid : validateData addresses = .ok ()) :
    attemptSecretSantaAssignments allow (createResidentMap addresses) zeroGiverShuffle
      = .ok ((mapValues (createResidentMap addresses)).map
          (fun t => makeAssignment (createResidentMap addresses) default t)) := by
  have hv := valid_ids_streets addresses hvalid
  have h := giverLoop_zero_givers allow (createResidentMap addresses) zeroGiverShuffle
    zeroGiverShuffle_succ (createResidentMap addresses) 0 []
    (nodup_createResidentMap addresses) (keyedById_createResidentMap addresses)
    (fun e he => (hv e he).1) (fun e he => (hv e he).2)
  unfold attemptSecretSantaAssignments
  simp only
  rw [zeroGiverShuffle_zero, h, List.nil_append]

/-! ## Lemmas on orders that are permutations -/

/-- The dataset a1, a2 at address A and b1 at address B is accepted by
`validateData`, has 3 residents, two of them at different addresses, and with
the flag false no giver and candidate orders that are permutations of the maps
they shuffle make `generateSecretSantaAssignments` return a sequence.  With
shuffles that are only required to list values of the shuffled map and zero
residents, it never returns a sequence in which each resident gives once. -/
theorem permutation_orders_fail_two_to_one :
    validateData [addressA, addressB] = .ok () ∧
    2 ≤ (createResidentMap [addressA, addressB]).length ∧
    (∃ r1 ∈ mapValues (createResidentMap [addressA, addressB]),
      ∃ r2 ∈ mapValues (createResidentMap [addressA, addressB]),
        r1.Address.Address ≠ r2.Address.Address) ∧
    (¬ ∃ shuffles : Nat → Shuffler,
      (∀ i k m, (shuffles i k m).Perm (mapValues m)) ∧
      ∃ assignments,
        generateSecretSantaAssignments false [addressA, addressB] shuffles
          = .ok assignments ∧
        assignments.length = (createResidentMap [addressA, addressB]).length) ∧
    (¬ ∃ shuffles : Nat → Shuffler,
      (∀ i k m, ∀ r ∈ shuffles i k m, r ∈ mapValues m ∨ r = default) ∧
      ∃ assignments,
        generateSecretSantaAssignments false [addressA, addressB] shuffles
          = .ok assignments ∧
        (assignments.map (fun a => a.From)).Perm
          (mapValues (createResidentMap [addressA, addressB]))) := by
  refine ⟨rfl, by decide, ⟨⟨personA1, addressA⟩, by decide, ⟨personB1, addressB⟩,
    by decide, by decide⟩, ?_, ?_⟩
  · rintro ⟨shuffles, hperm, assignments, hok, _⟩
    have hfail : ∀ i, attemptSecretSantaAssignments false
        (createResidentMap [addressA, addressB]) (shuffles i)
        = .error "Unable to find a pairing" := fun i =>
      attempt_fails_of_majority _ (shuffles i) "1 Ash Road"
        (nodup_createResidentMap _) (keyedById_createResidentMap _) (by decide) (hperm i)
    unfold generateSecretSantaAssignments at hok
    rw [generateLoop_all_fail false (createResidentMap [addressA, addressB]) shuffles 1000 0
      rfl (by decide) (fun i _ _ => ⟨_, hfail i⟩)] at hok
    simp at hok
  · rintro ⟨shuffles, hlisted, assignments, hok, hgivers⟩
    obtain ⟨i, _, _, hi, _⟩ := generateLoop_ok false _ shuffles 1000 0 assignments rfl
      (by decide) hok
    obtain ⟨pairs, hp, has, _⟩ := attempt_ok false _ (shuffles i) assignments hi
    have hfst : pairs.map Prod.fst = assignments.map (fun a => a.From) := by
      rw [has, List.map_map]
      exact List.map_congr_left (fun p _ => (makeAssignment_From _ p.1 p.2).symm)
    refine majority_blocks (createResidentMap [addressA, addressB]) (shuffles i)
      "1 Ash Road" pairs (keyedById_createResidentMap _) (by decide) ?_ hp
      (by rw [hfst]; exact hgivers)
    intro j m hm r hr hc
    rcases hlisted i j m r hr with h | h
    · exact h
    · rw [h] at hc
      have hkey := (hm.map Prod.fst).subset ((mapContains_iff _ _).1 hc)
      exact absurd hkey (by decide)

/-- With the flag false no returned assignment pairs two residents with the same
street-address string, also when their `Address` records differ.  So over a
dataset of two residents with the same street-address string every attempt whose
giver order and candidate orders are permutations of the maps they shuffle
fails, and `generateSecretSantaAssignments` returns the exhaustion error (the
message of source line 208). -/
theorem same_street_string_blocks (addresses : List Address) (shuffles : Nat → Shuffler)
    (street : String)
    (htwo : (createResidentMap addresses).length = 2)
    (hsame : ∀ r ∈ mapValues (createResidentMap addresses), r.Address.Address = street)
    (hperm : ∀ i k m, (shuffles i k m).Perm (mapValues m)) :
    (∀ (residents : GoMap) (shuffle : Shuffler) (assignments : List SecretSantaAssignment),
      attemptSecretSantaAssignments false residents shuffle = .ok assignments →
      ∀ a ∈ assignments,
        ¬ (a.From.Address ≠ a.To.Address ∧ a.From.Address.Address = a.To.Address.Address)) ∧
    (∀ i, attemptSecretSantaAssignments false (createResidentMap addresses) (shuffles i)
      = .error "Unable to find a pairing") ∧
    generateSecretSantaAssignments false addresses shuffles
      = .error "Could not assign secret santas.." := by
  have hcount : (mapValues (createResidentMap addresses)).countP
      (fun r => decide (r.Address.Address = street))
      = (mapValues (createResidentMap addresses)).length :=
    List.countP_eq_length.2 (fun r hr => by simpa using hsame r hr)
  have hlen : (mapValues (createResidentMap addresses)).length = 2 := by
    rw [← htwo]; simp [mapValues]
  have hfail : ∀ i, attemptSecretSantaAssignments false (createResidentMap addresses)
      (shuffles i) = .error "Unable to find a pairing" := fun i =>
    attempt_fails_of_majority _ (shuffles i) street (nodup_createResidentMap addresses)
      (keyedById_createResidentMap addresses) (by rw [hcount, hlen, htwo]; decide) (hperm i)
  refine ⟨?_, hfail, ?_⟩
  · intro residents shuffle assignments hok a ha h
    exact (attempt_ids_ne false residents shuffle assignments hok a ha).2 rfl h.2
  · unfold generateSecretSantaAssignments
    rw [generateLoop_all_fail false (createResidentMap addresses) shuffles 1000 0 rfl
      (by decide) (fun i _ _ => ⟨_, hfail i⟩)]
    rfl

/-! ## The claims -/

/-- C1: over a resident index built by `createResidentMap`, when the giver order
(the first shuffle of the attempt) is a permutation of the index and the attempt
returns without error, the returned sequence has as many assignments as there are
residents and every resident id is the `From` id of exactly one of them.  The
candidate orders are left arbitrary. -/
theorem C1_every_resident_gives_once (allow : Bool) (addresses : List Address)
    (shuffle : Shuffler) (assignments : List SecretSantaAssignment)
    (hperm : (shuffle 0 (createResidentMap addresses)).Perm
      (mapValues (createResidentMap addresses)))
    (hok : attemptSecretSantaAssignments allow (createResidentMap addresses) shuffle
      = .ok assignments) :
    assignments.length = (createResidentMap addresses).length ∧
    ∀ id ∈ mapKeys (createResidentMap addresses),
      (assignments.map (fun a => a.From.Person.Id)).count id = 1 := by
  have hn := nodup_createResidentMap addresses
  have hk := keyedById_createResidentMap addresses
  have hfrom := attempt_froms allow _ shuffle assignments hn hperm hok
  have hids : (mapValues (createResidentMap addresses)).map (fun r => r.Person.Id)
      = mapKeys (createResidentMap addresses) := by
    simp only [mapValues, mapKeys, List.map_map]
    exact List.map_congr_left (fun e he => hk e he)
  have hmap : assignments.map (fun a => a.From.Person.Id)
      = (shuffle 0 (createResidentMap addresses)).map (fun r => r.Person.Id) := by
    rw [← hfrom, List.map_map]; rfl
  have hp : (assignments.map (fun a => a.From.Person.Id)).Perm
      (mapKeys (createResidentMap addresses)) := by
    rw [hmap, ← hids]; exact hperm.map _
  constructor
  · have := hp.length_eq
    simpa [mapKeys] using this
  · intro id hid
    rw [hp.count_eq]
    exact List.count_eq_one_of_mem hn hid

/-- Witness of C1: a1 and b1 at two addresses, shuffles in listed order. -/
theorem C1_every_resident_gives_once_witness :
    attemptSecretSantaAssignments false (createResidentMap [addressA1, addressB]) listedOrder
      = .ok pairedA1B1 ∧
    pairedA1B1.length = (createResidentMap [addressA1, addressB]).length ∧
    ∀ id ∈ mapKeys (createResidentMap [addressA1, addressB]),
      (pairedA1B1.map (fun a => a.From.Person.Id)).count id = 1 :=
  ⟨attempt_pairedA1B1 false,
    C1_every_resident_gives_once false [addressA1, addressB] listedOrder pairedA1B1
      (listedOrder_perm 0 _) (attempt_pairedA1B1 false)⟩

/-- C2: whatever the resident index, the flag and the results of the shuffles,
every assignment of a sequence returned by `attemptSecretSantaAssignments`, and
every assignment of a sequence returned by `generateSecretSantaAssignments`, has
a `From` id different from its `To` id. -/
theorem C2_no_self_assignment (allow : Bool) (residents : GoMap) (shuffle : Shuffler)
    (addresses : List Address) (shuffles : Nat → Shuffler)
    (assignments : List SecretSantaAssignment)
    (hok : attemptSecretSantaAssignments allow residents shuffle = .ok assignments ∨
      generateSecretSantaAssignments allow addresses shuffles = .ok assignments) :
    ∀ a ∈ assignments, a.From.Person.Id ≠ a.To.Person.Id := by
  have hatt : ∀ (residents : GoMap) (shuffle : Shuffler),
      attemptSecretSantaAssignments allow residents shuffle = .ok assignments →
      ∀ a ∈ assignments, a.From.Person.Id ≠ a.To.Person.Id := by
    intro residents shuffle hok a ha
    obtain ⟨pairs, hp, rfl, _⟩ := attempt_ok allow residents shuffle assignments hok
    obtain ⟨p, hpm, rfl⟩ := List.mem_map.1 ha
    rw [makeAssignment_From, makeAssignment_To]
    exact (picks_rules allow shuffle 0 residents pairs hp p hpm).1
  rcases hok with hok | hok
  · exact hatt residents shuffle hok
  · obtain ⟨i, _, _, hi, _⟩ := generateLoop_ok allow _ shuffles 1000 0 assignments rfl
      (by decide) hok
    exact hatt _ _ hi

/-- Witness of C2: a1 and b1 at two addresses, shuffles in listed order. -/
theorem C2_no_self_assignment_witness :
    attemptSecretSantaAssignments false (createResidentMap [addressA1, addressB]) listedOrder
      = .ok pairedA1B1 ∧
    ∀ a ∈ pairedA1B1, a.From.Person.Id ≠ a.To.Person.Id :=
  ⟨attempt_pairedA1B1 false,
    C2_no_self_assignment false (createResidentMap [addressA1, addressB]) listedOrder
      [addressA1, addressB] (fun (_ : Nat) => listedOrder) pairedA1B1
      (Or.inl (attempt_pairedA1B1 false))⟩

/-- C3: with `AllowSameResidenceExchange` false, whatever the resident index and
the results of the shuffles, every assignment returned by
`attemptSecretSantaAssignments` has giver and receiver with different
street-address strings, hence with different `Address` records. -/
theorem C3_different_addresses (residents : GoMap) (shuffle : Shuffler)
    (assignments : List SecretSantaAssignment)
    (hok : attemptSecretSantaAssignments false residents shuffle = .ok assignments) :
    ∀ a ∈ assignments, a.From.Address.Address ≠ a.To.Address.Address ∧
      a.From.Address ≠ a.To.Address := by
  intro a ha
  obtain ⟨pairs, hp, rfl, _⟩ := attempt_ok false residents shuffle assignments hok
  obtain ⟨p, hpm, rfl⟩ := List.mem_map.1 ha
  rw [makeAssignment_From, makeAssignment_To]
  have h := (picks_rules false shuffle 0 residents pairs hp p hpm).2 rfl
  exact ⟨h, fun h2 => h (by rw [h2])⟩

/-- Witness of C3: a1 and b1 at two addresses, shuffles in listed order. -/
theorem C3_different_addresses_witness :
    attemptSecretSantaAssignments false (createResidentMap [addressA1, addressB]) listedOrder
      = .ok pairedA1B1 ∧
    ∀ a ∈ pairedA1B1, a.From.Address.Address ≠ a.To.Address.Address ∧
      a.From.Address ≠ a.To.Address :=
  ⟨attempt_pairedA1B1 false,
    C3_different_addresses (createResidentMap [addressA1, addressB]) listedOrder pairedA1B1
      (attempt_pairedA1B1 false)⟩

/-- C4: over the resident index of a dataset accepted by `validateData`, with a
giver order made of values of the index and zero residents (the elements of a
sequence returned by `randomSequenceFromMapValues`, see
`randomSequenceFromMapValues_mem`), every assignment returned by
`attemptSecretSantaAssignments` has `Actor` equal to `From` when the `ActorId`
of the giver is empty, and otherwise has as `Actor` the entry of that `ActorId` in
the resident index, whose person id is the `ActorId`. -/
theorem C4_actor_resolved_in_index (allow : Bool) (addresses : List Address)
    (shuffle : Shuffler) (assignments : List SecretSantaAssignment)
    (hvalid : validateData addresses = .ok ())
    (hgivers : ∀ g ∈ shuffle 0 (createResidentMap addresses),
      g ∈ mapValues (createResidentMap addresses) ∨ g = default)
    (hok : attemptSecretSantaAssignments allow (createResidentMap addresses) shuffle
      = .ok assignments) :
    ∀ a ∈ assignments,
      (a.From.Person.ActorId = "" → a.Actor = a.From) ∧
      (a.From.Person.ActorId ≠ "" →
        a.Actor = mapIndex (createResidentMap addresses) a.From.Person.ActorId ∧
        (a.From.Person.ActorId, a.Actor) ∈ createResidentMap addresses ∧
        a.Actor.Person.Id = a.From.Person.ActorId) := by
  intro a ha
  obtain ⟨pairs, _, rfl, hpre⟩ := attempt_ok allow _ shuffle assignments hok
  obtain ⟨p, hpm, rfl⟩ := List.mem_map.1 ha
  have hg : p.1 ∈ shuffle 0 (createResidentMap addresses) :=
    hpre.subset (List.mem_map.2 ⟨p, hpm, rfl⟩)
  rw [makeAssignment_From]
  constructor
  · intro hempty
    have : ¬ p.1.Person.ActorId.length > 0 := by rw [len_pos]; simpa using hempty
    simp [makeAssignment, this]
  · intro hne
    have hlen : p.1.Person.ActorId.length > 0 := (len_pos _).2 hne
    have hact : (makeAssignment (createResidentMap addresses) p.1 p.2).Actor
        = mapIndex (createResidentMap addresses) p.1.Person.ActorId := by
      simp [makeAssignment, hlen]
    have hcont : mapContains (createResidentMap addresses) p.1.Person.ActorId = true := by
      rcases hgivers p.1 hg with h | h
      · obtain ⟨h1, h2⟩ := values_createResidentMap addresses p.1 h
        have hp : p.1.Person ∈ allPersons addresses := by
          unfold allPersons
          exact List.mem_flatMap.2 ⟨_, h1, h2⟩
        have hv := ((validateData_ok_iff addresses).1 hvalid).2.2.2 _ hp hne
        exact (mapContains_iff _ _).2 ((mapKeys_createResidentMap addresses _).2 hv.2)
      · rw [h] at hne
        exact absurd rfl hne
    have hmem := mapIndex_mem _ _ hcont
    rw [hact]
    exact ⟨rfl, hmem, keyedById_createResidentMap addresses _ hmem⟩

/-- Witness of C4: b1 gives with actor id a1, and the actor recorded is the
entry of a1 in the index. -/
theorem C4_actor_resolved_in_index_witness :
    (validateData [addressA1, addressB] = .ok () ∧
      attemptSecretSantaAssignments true (createResidentMap [addressA1, addressB])
        listedOrder = .ok pairedA1B1) ∧
    ∀ a ∈ pairedA1B1,
      (a.From.Person.ActorId = "" → a.Actor = a.From) ∧
      (a.From.Person.ActorId ≠ "" →
        a.Actor = mapIndex (createResidentMap [addressA1, addressB]) a.From.Person.ActorId ∧
        (a.From.Person.ActorId, a.Actor) ∈ createResidentMap [addressA1, addressB] ∧
        a.Actor.Person.Id = a.From.Person.ActorId) :=
  ⟨⟨rfl, attempt_pairedA1B1 true⟩,
    C4_actor_resolved_in_index true [addressA1, addressB] listedOrder pairedA1B1 rfl
      (fun _ hg => Or.inl hg) (attempt_pairedA1B1 true)⟩

/-- C5: `validateData` returns no error if and only if the dataset is valid in
the sense of `ValidData`: non-empty address fields, non-empty person fields,
pairwise distinct person ids, and every non-empty actor id different from the
own id of the person and equal to the id of a person of the dataset.  In particular
it rejects an empty zipcode, an empty email, a duplicated id, a self-referencing
actor id and a dangling actor id. -/
theorem C5_validateData_accepts_iff_valid (addresses : List Address) :
    (validateData addresses = .ok () ↔ ValidData addresses) ∧
    ((∃ a ∈ addresses, a.Zipcode = "") → validateData addresses ≠ .ok ()) ∧
    ((∃ p ∈ allPersons addresses, p.Email = "") → validateData addresses ≠ .ok ()) ∧
    (¬ ((allPersons addresses).map (fun p => p.Id)).Nodup →
      validateData addresses ≠ .ok ()) ∧
    ((∃ p ∈ allPersons addresses, p.ActorId ≠ "" ∧ p.ActorId = p.Id) →
      validateData addresses ≠ .ok ()) ∧
    ((∃ p ∈ allPersons addresses, p.ActorId ≠ "" ∧
        ∀ q ∈ allPersons addresses, q.Id ≠ p.ActorId) →
      validateData addresses ≠ .ok ()) := by
  refine ⟨validateData_ok_iff addresses, ?_, ?_, ?_, ?_, ?_⟩
  · rintro ⟨a, ha, hz⟩ hok
    exact (((validateData_ok_iff addresses).1 hok).1 a ha).2.2.2 hz
  · rintro ⟨p, hp, he⟩ hok
    exact (((validateData_ok_iff addresses).1 hok).2.1 p hp).2.2.2.2 he
  · intro hnd hok
    exact hnd ((validateData_ok_iff addresses).1 hok).2.2.1
  · rintro ⟨p, hp, hne, hself⟩ hok
    exact (((validateData_ok_iff addresses).1 hok).2.2.2 p hp hne).1 hself
  · rintro ⟨p, hp, hne, hnone⟩ hok
    obtain ⟨q, hq, hqe⟩ := (((validateData_ok_iff addresses).1 hok).2.2.2 p hp hne).2
    exact hnone q hq hqe

/-- Witness of C5: an address whose zipcode is empty is rejected. -/
theorem C5_validateData_accepts_iff_valid_witness :
    validateData [{ addressA1 with Zipcode := "" }] ≠ .ok () :=
  (C5_validateData_accepts_iff_valid [{ addressA1 with Zipcode := "" }]).2.1
    ⟨_, List.mem_cons_self _ _, rfl⟩

/-- C6: `generateSecretSantaAssignments` returns the assignments of the first
attempt that succeeds among the first 1000; it returns an error exactly when the
first 1000 attempts all fail; the error it returns is never the per-attempt
failure; and its result does not depend on the random choices of any attempt
after the 1000th. -/
theorem C6_bounded_retry (allow : Bool) (addresses : List Address)
    (shuffles : Nat → Shuffler) :
    (∀ (i : Nat) (assignments : List SecretSantaAssignment), i < 1000 →
      attemptSecretSantaAssignments allow (createResidentMap addresses) (shuffles i)
        = .ok assignments →
      (∀ j, j < i → ∃ e, attemptSecretSantaAssignments allow
        (createResidentMap addresses) (shuffles j) = .error e) →
      generateSecretSantaAssignments allow addresses shuffles = .ok assignments) ∧
    ((∃ e, generateSecretSantaAssignments allow addresses shuffles = .error e) ↔
      ∀ i, i < 1000 → ∃ e, attemptSecretSantaAssignments allow
        (createResidentMap addresses) (shuffles i) = .error e) ∧
    generateSecretSantaAssignments allow addresses shuffles
      ≠ .error "Unable to find a pairing" ∧
    (∀ shuffles1 : Nat → Shuffler, (∀ i, i < 1000 → shuffles1 i = shuffles i) →
      generateSecretSantaAssignments allow addresses shuffles1
        = generateSecretSantaAssignments allow addresses shuffles) := by
  refine ⟨?_, ?_, ?_, ?_⟩
  · intro i assignments hi hok hfail
    exact generateLoop_first_ok allow _ shuffles 1000 0 i assignments rfl (Nat.zero_le _) hi
      hok (fun j _ hj => hfail j hj)
  · constructor
    · rintro ⟨e, he⟩ i hi
      exact (generateLoop_error allow _ shuffles 1000 0 e rfl he).2 i (Nat.zero_le _) hi
    · intro h
      exact ⟨_, generateLoop_all_fail allow _ shuffles 1000 0 rfl (by decide)
        (fun i _ hi => h i hi)⟩
  · intro h
    have h1 := (generateLoop_error allow _ shuffles 1000 0 _ rfl h).1
    cases allow
    · exact absurd h1 (by decide)
    · exact absurd h1 (by decide)
  · intro shuffles1 h
    exact generateLoop_congr allow _ shuffles1 shuffles 1000 0 (fun i _ hi => h i hi)

/-- Witness of C6: a1 and b1 at two addresses; the first attempt succeeds. -/
theorem C6_bounded_retry_witness :
    generateSecretSantaAssignments false [addressA1, addressB] (fun _ => listedOrder)
      = .ok pairedA1B1 :=
  (C6_bounded_retry false [addressA1, addressB] (fun _ => listedOrder)).1 0 pairedA1B1
    (by decide) (attempt_pairedA1B1 false) (fun j hj => absurd hj (Nat.not_lt_zero j))

/-- C7: with two residents at one address and `AllowSameResidenceExchange` false
every attempt in listed order fails, and the error returned after the 1000th
is the message without the hint; with the single resident a1 and the flag true
the error returned is the message that suggests setting the flag to true. -/
theorem C7_exhaustion_messages_swapped :
    generateSecretSantaAssignments false [addressA] (fun _ => listedOrder)
      = .error "Could not assign secret santas.." ∧
    generateSecretSantaAssignments true [addressA1] (fun _ => listedOrder)
      = .error
        "Could not assign secret santas. Try setting \"allow_same_residence_exchange\" to true." := by
  constructor
  · unfold generateSecretSantaAssignments
    rw [generateLoop_all_fail false (createResidentMap [addressA]) (fun _ => listedOrder)
      1000 0 rfl (by decide)
      (fun _ _ _ => ⟨"Unable to find a pairing", rfl⟩)]
    rfl
  · unfold generateSecretSantaAssignments
    rw [generateLoop_all_fail true (createResidentMap [addressA1]) (fun _ => listedOrder)
      1000 0 rfl (by decide)
      (fun _ _ _ => ⟨"Unable to find a pairing", rfl⟩)]
    rfl

/-- C8: with `AllowSameResidenceExchange` false and a street address that houses
more than half of the residents of the index, every attempt whose giver order and
candidate orders are permutations of the maps they shuffle fails with "Unable to
find a pairing", and `generateSecretSantaAssignments` returns the exhaustion
error (the message of source line 208). -/
theorem C8_majority_address_exhausts (addresses : List Address)
    (shuffles : Nat → Shuffler) (street : String)
    (hmajority : (createResidentMap addresses).length <
      2 * (mapValues (createResidentMap addresses)).countP
        (fun r => decide (r.Address.Address = street)))
    (hperm : ∀ i k m, (shuffles i k m).Perm (mapValues m)) :
    (∀ i, attemptSecretSantaAssignments false (createResidentMap addresses) (shuffles i)
      = .error "Unable to find a pairing") ∧
    generateSecretSantaAssignments false addresses shuffles
      = .error "Could not assign secret santas.." := by
  have hfail : ∀ i, attemptSecretSantaAssignments false (createResidentMap addresses)
      (shuffles i) = .error "Unable to find a pairing" := fun i =>
    attempt_fails_of_majority _ (shuffles i) street (nodup_createResidentMap addresses)
      (keyedById_createResidentMap addresses) hmajority (hperm i)
  refine ⟨hfail, ?_⟩
  unfold generateSecretSantaAssignments
  rw [generateLoop_all_fail false (createResidentMap addresses) shuffles 1000 0 rfl
    (by decide) (fun i _ _ => ⟨_, hfail i⟩)]
  rfl

/-- Witness of C8: a1 and a2 at address A, b1 at address B. -/
theorem C8_majority_address_exhausts_witness :
    (∀ _ : Nat, attemptSecretSantaAssignments false (createResidentMap [addressA, addressB])
      listedOrder = .error "Unable to find a pairing") ∧
    generateSecretSantaAssignments false [addressA, addressB] (fun (_ : Nat) => listedOrder)
      = .error "Could not assign secret santas.." :=
  C8_majority_address_exhausts [addressA, addressB] (fun (_ : Nat) => listedOrder) "1 Ash Road"
    (by decide) (fun _ k m => listedOrder_perm k m)

/-- C9: over an index with exactly one resident, for either value of the flag,
every attempt whose giver order is a permutation of the index fails with "Unable
to find a pairing", whatever the candidate orders, and
`generateSecretSantaAssignments` returns an error. -/
theorem C9_single_resident_exhausts (allow : Bool) (addresses : List Address)
    (shuffles : Nat → Shuffler)
    (hone : (createResidentMap addresses).length = 1)
    (hperm : ∀ i, (shuffles i 0 (createResidentMap addresses)).Perm
      (mapValues (createResidentMap addresses))) :
    (∀ i, attemptSecretSantaAssignments allow (createResidentMap addresses) (shuffles i)
      = .error "Unable to find a pairing") ∧
    ∃ e, generateSecretSantaAssignments allow addresses shuffles = .error e := by
  have hk := keyedById_createResidentMap addresses
  have hfail : ∀ i, attemptSecretSantaAssignments allow (createResidentMap addresses)
      (shuffles i) = .error "Unable to find a pairing" := by
    intro i
    have hp := hperm i
    obtain ⟨e, he⟩ := List.length_eq_one.1 hone
    rw [he] at hp hk ⊢
    have hg : shuffles i 0 [e] = [e.2] := by
      simpa [mapValues] using hp
    have hkey : e.2.Person.Id = e.1 := hk e (List.mem_cons_self _ _)
    have hnone : recipientLoop allow [e] e.2 [e] [] (shuffles i 1 [e]) = none := by
      rw [recipientLoop_none]
      intro t _
      by_cases ht : e.2.Person.Id = t.Person.Id
      · exact Or.inl ht
      · right; left
        rw [mapContains_false_iff]
        simp only [mapKeys, List.map_cons, List.map_nil, List.mem_singleton]
        intro h2
        exact ht (by rw [hkey, h2])
    unfold attemptSecretSantaAssignments
    simp only [hg]
    unfold giverLoop
    simp [hnone]
  refine ⟨hfail, ?_⟩
  unfold generateSecretSantaAssignments
  exact ⟨_, generateLoop_all_fail allow (createResidentMap addresses) shuffles 1000 0 rfl
    (by decide) (fun i _ _ => ⟨_, hfail i⟩)⟩

/-- Witness of C9: a1 alone. -/
theorem C9_single_resident_exhausts_witness :
    (∀ _ : Nat, attemptSecretSantaAssignments true (createResidentMap [addressA1])
      listedOrder = .error "Unable to find a pairing") ∧
    ∃ e, generateSecretSantaAssignments true [addressA1] (fun (_ : Nat) => listedOrder) = .error e :=
  C9_single_resident_exhausts true [addressA1] (fun (_ : Nat) => listedOrder) (by decide)
    (fun _ => listedOrder_perm 0 _)

/-- C10: for every dataset accepted by `validateData` with at least 2 residents
and either value of the flag there is an outcome of the random choices for which
`generateSecretSantaAssignments` returns, on its first attempt, a sequence with
as many assignments as there are residents.  In that outcome the `range` loops
visit the entries as listed and `rand.Int` returns the keys `zeroGiverKeys`: 0
for every entry of the giver shuffle, so that the givers are zero residents
(a key of 0 loses its value, see C14), and decreasing positive keys for the
candidates.  The slice of the giver shuffle then holds keys of 0 only: it is in
order before the sort, which leaves it as it is.  When the flag is true, or no street address houses more than half
of the residents, there is also such an outcome in which every order is a
permutation of the map it shuffles. -/
theorem C10_some_outcome_succeeds (allow : Bool) (addresses : List Address)
    (hvalid : validateData addresses = .ok ())
    (htwo : 2 ≤ (createResidentMap addresses).length) :
    (∃ (draws : Nat → Nat → GoMap → Nat → Nat) (assignments : List SecretSantaAssignment),
      generateSecretSantaAssignments allow addresses
        (fun i k m => randomSequenceFromMapValues m (draws i k m)) = .ok assignments ∧
      assignments.length = (createResidentMap addresses).length) ∧
    generateSecretSantaAssignments allow addresses
        (fun _ k m => randomSequenceFromMapValues m (zeroGiverKeys k m))
      = .ok ((mapValues (createResidentMap addresses)).map
          (fun t => makeAssignment (createResidentMap addresses) default t)) ∧
    ((allow = false → ∀ r ∈ mapValues (createResidentMap addresses),
        2 * (mapValues (createResidentMap addresses)).countP
          (fun q => decide (q.Address.Address = r.Address.Address))
          ≤ (createResidentMap addresses).length) →
      ∃ shuffles : Nat → Shuffler,
        (∀ i k m, (shuffles i k m).Perm (mapValues m)) ∧
        (∀ i k m, KeyedById m → ∃ (visit : GoMap) (draws : Nat → Nat), visit.Perm m ∧
          randomSequenceFromMapValues visit draws = shuffles i k m) ∧
        ∃ assignments,
          generateSecretSantaAssignments allow addresses shuffles = .ok assignments ∧
          assignments.length = (createResidentMap addresses).length) := by
  have hgen : generateSecretSantaAssignments allow addresses
        (fun _ k m => randomSequenceFromMapValues m (zeroGiverKeys k m))
      = .ok ((mapValues (createResidentMap addresses)).map
          (fun t => makeAssignment (createResidentMap addresses) default t)) :=
    generateLoop_first_ok allow (createResidentMap addresses) (fun _ => zeroGiverShuffle)
      1000 0 0 _ rfl (Nat.le_refl _) (by decide) (attempt_zero_givers allow addresses hvalid)
      (fun j _ hj => absurd hj (Nat.not_lt_zero j))
  refine ⟨⟨fun _ k m => zeroGiverKeys k m, _, hgen, ?_⟩, hgen,
    fun hbal => planned_generate_succeeds allow addresses htwo hbal⟩
  simp [mapValues]

/-- Witness of C10: a1 and a2 at address A and b1 at address B, flag false. -/
theorem C10_some_outcome_succeeds_witness :
    (validateData [addressA, addressB] = .ok () ∧
      2 ≤ (createResidentMap [addressA, addressB]).length) ∧
    ∃ (draws : Nat → Nat → GoMap → Nat → Nat) (assignments : List SecretSantaAssignment),
      generateSecretSantaAssignments false [addressA, addressB]
        (fun i k m => randomSequenceFromMapValues m (draws i k m)) = .ok assignments ∧
      assignments.length = (createResidentMap [addressA, addressB]).length :=
  ⟨⟨rfl, by decide⟩,
    (C10_some_outcome_succeeds false [addressA, addressB] rfl (by decide)).1⟩

/-- C11, as amended: for a dataset of three residents at three distinct street
addresses and either value of the flag, some giver and candidate orders that are
permutations of the maps they shuffle make `generateSecretSantaAssignments`
return, and whenever it returns without error with giver orders that are
permutations it returns exactly 3 assignments, each with a giver different from
the receiver. -/
theorem C11_three_residents_may_succeed (allow : Bool) (addresses : List Address)
    (hthree : (createResidentMap addresses).length = 3)
    (hstreets : ((mapValues (createResidentMap addresses)).map
      (fun r => r.Address.Address)).Nodup) :
    (∃ shuffles : Nat → Shuffler,
      (∀ i k m, (shuffles i k m).Perm (mapValues m)) ∧
      ∃ assignments,
        generateSecretSantaAssignments allow addresses shuffles = .ok assignments ∧
        assignments.length = 3 ∧
        ∀ a ∈ assignments, a.From.Person.Id ≠ a.To.Person.Id) ∧
    (∀ shuffles : Nat → Shuffler,
      (∀ i, (shuffles i 0 (createResidentMap addresses)).Perm
        (mapValues (createResidentMap addresses))) →
      ∀ assignments,
        generateSecretSantaAssignments allow addresses shuffles = .ok assignments →
        assignments.length = 3 ∧
        ∀ a ∈ assignments, a.From.Person.Id ≠ a.To.Person.Id) := by
  have hall : ∀ shuffles : Nat → Shuffler,
      (∀ i, (shuffles i 0 (createResidentMap addresses)).Perm
        (mapValues (createResidentMap addresses))) →
      ∀ assignments,
        generateSecretSantaAssignments allow addresses shuffles = .ok assignments →
        assignments.length = 3 ∧
        ∀ a ∈ assignments, a.From.Person.Id ≠ a.To.Person.Id := by
    intro shuffles hperm assignments hok
    obtain ⟨i, _, _, hi, _⟩ := generateLoop_ok allow _ shuffles 1000 0 assignments rfl
      (by decide) hok
    refine ⟨?_, fun a ha => (attempt_ids_ne allow _ (shuffles i) assignments hi a ha).1⟩
    rw [attempt_length allow _ (shuffles i) assignments (nodup_createResidentMap addresses)
      (hperm i) hi, hthree]
  refine ⟨?_, hall⟩
  have hbal : allow = false → ∀ r ∈ mapValues (createResidentMap addresses),
      2 * (mapValues (createResidentMap addresses)).countP
        (fun q => decide (q.Address.Address = r.Address.Address))
        ≤ (createResidentMap addresses).length := by
    intro _ r _
    have hc : (mapValues (createResidentMap addresses)).countP
        (fun q => decide (q.Address.Address = r.Address.Address))
        = ((mapValues (createResidentMap addresses)).map
          (fun q => q.Address.Address)).count r.Address.Address := by
      rw [List.count, List.countP_map]
      congr 1
    have hle := List.nodup_iff_count_le_one.1 hstreets r.Address.Address
    rw [hc, hthree]
    omega
  obtain ⟨shuffles, hperm, _, assignments, hok, hlen⟩ :=
    planned_generate_succeeds allow addresses (by omega) hbal
  exact ⟨shuffles, hperm, assignments, hok, by rw [hlen, hthree],
    (hall shuffles (fun i => hperm i 0 _) assignments hok).2⟩

/-- Witness of C11 as amended: a1, b1 and c1 at three addresses, flag false. -/
theorem C11_three_residents_may_succeed_witness :
    ((createResidentMap [addressA1, addressB, addressC]).length = 3 ∧
      ((mapValues (createResidentMap [addressA1, addressB, addressC])).map
        (fun r => r.Address.Address)).Nodup) ∧
    ∃ shuffles : Nat → Shuffler,
      (∀ i k m, (shuffles i k m).Perm (mapValues m)) ∧
      ∃ assignments,
        generateSecretSantaAssignments false [addressA1, addressB, addressC] shuffles
          = .ok assignments ∧
        assignments.length = 3 ∧
        ∀ a ∈ assignments, a.From.Person.Id ≠ a.To.Person.Id :=
  ⟨⟨by decide, by decide⟩,
    (C11_three_residents_may_succeed false [addressA1, addressB, addressC]
      (by decide) (by decide)).1⟩

/-- C11 fails as stated: a1, b1 and c1 live at three distinct addresses of a
dataset accepted by `validateData`; when every shuffle of every attempt returns
the residents as listed, a1 gives to b1, b1 gives to a1 and c1 is left with
itself, so each of the 1000 attempts fails and
`generateSecretSantaAssignments` returns an error, for either value of the
flag. -/
theorem C11_counterexample :
    validateData [addressA1, addressB, addressC] = .ok () ∧
    (createResidentMap [addressA1, addressB, addressC]).length = 3 ∧
    ((mapValues (createResidentMap [addressA1, addressB, addressC])).map
      (fun r => r.Address.Address)).Nodup ∧
    (∀ k m, (listedOrder k m).Perm (mapValues m)) ∧
    attemptSecretSantaAssignments true (createResidentMap [addressA1, addressB, addressC])
      listedOrder = .error "Unable to find a pairing" ∧
    generateSecretSantaAssignments true [addressA1, addressB, addressC]
      (fun (_ : Nat) => listedOrder)
      = .error
        "Could not assign secret santas. Try setting \"allow_same_residence_exchange\" to true." ∧
    generateSecretSantaAssignments false [addressA1, addressB, addressC]
      (fun (_ : Nat) => listedOrder) = .error "Could not assign secret santas.." := by
  refine ⟨rfl, by decide, by decide, listedOrder_perm, rfl, ?_, ?_⟩
  · unfold generateSecretSantaAssignments
    rw [generateLoop_all_fail true (createResidentMap [addressA1, addressB, addressC])
      (fun (_ : Nat) => listedOrder) 1000 0 rfl (by decide)
      (fun _ _ _ => ⟨"Unable to find a pairing", rfl⟩)]
    rfl
  · unfold generateSecretSantaAssignments
    rw [generateLoop_all_fail false (createResidentMap [addressA1, addressB, addressC])
      (fun (_ : Nat) => listedOrder) 1000 0 rfl (by decide)
      (fun _ _ _ => ⟨"Unable to find a pairing", rfl⟩)]
    rfl

/-- C12, as amended: `validateData` applies its checks in the order of its
traversal and fails fast.  Address by address it checks the four fields of the
address (address, city, state, zipcode) and then, for each person of that
address in turn, an empty id, an id already seen, an empty first name, last
name, public name, email, and a bad actor id; the failure it returns is the
first violated check of `datasetChecks` in this order, and it accepts when none
is violated.  A list in which some address has an empty zipcode is always
rejected, and it is rejected with the zipcode failure of that address when the
address is the first of the list and its other three fields are non-empty,
whatever the person records contain. -/
theorem C12_first_violation_in_traversal_order (addresses : List Address) :
    (validateData addresses
      = match firstViolation addresses with
        | some e => .error e
        | none => .ok ()) ∧
    (∀ e, validateData addresses = .error e ↔ firstViolation addresses = some e) ∧
    ((∃ a ∈ addresses, a.Zipcode = "") → ∃ e, validateData addresses = .error e) ∧
    (∀ a rest, addresses = a :: rest → a.Address ≠ "" → a.City ≠ "" → a.State ≠ "" →
      a.Zipcode = "" → validateData addresses = .error (.missingZipcode a)) := by
  have hmain : validateData addresses
      = match firstViolation addresses with
        | some e => .error e
        | none => .ok () := by
    unfold validateData firstViolation
    exact validateAddresses_eq_checks _ addresses []
  refine ⟨hmain, ?_, ?_, ?_⟩
  · intro e
    rw [hmain]
    cases firstViolation addresses with
    | none => simp
    | some e1 => simp
  · rintro ⟨a, ha, hz⟩
    cases hv : validateData addresses with
    | error e => exact ⟨e, rfl⟩
    | ok u =>
      have hvalid := (validateData_ok_iff addresses).1 hv
      exact absurd hz (hvalid.1 a ha).2.2.2
  · rintro a rest rfl h1 h2 h3 h4
    unfold validateData validateAddresses
    simp only [len_le_zero]
    simp [h1, h2, h3, h4]

/-- Witness of C12 as amended: one address with an empty zipcode. -/
theorem C12_first_violation_in_traversal_order_witness :
    (addressNoZip ∈ [addressNoZip] ∧ addressNoZip.Zipcode = "") ∧
    firstViolation [addressNoZip] = some (.missingZipcode addressNoZip) ∧
    validateData [addressNoZip] = .error (.missingZipcode addressNoZip) :=
  ⟨⟨by decide, rfl⟩,
    ((C12_first_violation_in_traversal_order [addressNoZip]).2.1 _).1
      ((C12_first_violation_in_traversal_order [addressNoZip]).2.2.2 addressNoZip [] rfl
        (by decide) (by decide) (by decide) rfl),
    (C12_first_violation_in_traversal_order [addressNoZip]).2.2.2 addressNoZip [] rfl
      (by decide) (by decide) (by decide) rfl⟩

/-- C12 fails as stated: the second address of this list has an empty zipcode,
a violation of check (1), yet `validateData` returns the failure of check (2)
for the person without email of the first address. -/
theorem C12_counterexample :
    addressNoZip ∈ [addressD, addressNoZip] ∧ addressNoZip.Zipcode = "" ∧
    validateData [addressD, addressNoZip] = .error (.missingEmail addressD personNoEmail) :=
  ⟨by decide, rfl, rfl⟩

/-- C13: the keys of `createResidentMap addresses` are exactly the person ids of
the list, never repeated, and each entry stores a resident whose id is its key.
When the person ids are pairwise distinct the map lists one entry per person, in
the order of the dataset: the entry of a person is the pair of that person and
the address whose `Residents` contains it. -/
theorem C13_index_one_entry_per_person (addresses : List Address) :
    (∀ k, k ∈ mapKeys (createResidentMap addresses) ↔ ∃ p ∈ allPersons addresses, p.Id = k) ∧
    (mapKeys (createResidentMap addresses)).Nodup ∧
    (∀ e ∈ createResidentMap addresses, e.2.Person.Id = e.1) ∧
    (((allPersons addresses).map (fun p => p.Id)).Nodup →
      createResidentMap addresses = (allResidents addresses).map (fun r => (r.Person.Id, r)) ∧
      (createResidentMap addresses).length = (allPersons addresses).length ∧
      ∀ a ∈ addresses, ∀ p ∈ a.Residents,
        (p.Id, ({ Person := p, Address := a } : Resident)) ∈ createResidentMap addresses ∧
        mapIndex (createResidentMap addresses) p.Id = { Person := p, Address := a }) := by
  refine ⟨mapKeys_createResidentMap addresses, nodup_createResidentMap addresses,
    keyedById_createResidentMap addresses, ?_⟩
  intro hnd
  have heq := createResidentMap_eq addresses hnd
  refine ⟨heq, ?_, ?_⟩
  · rw [heq, List.length_map, ← allResidents_persons, List.length_map]
  · intro a ha p hp
    have hmem : (p.Id, ({ Person := p, Address := a } : Resident))
        ∈ createResidentMap addresses := by
      rw [heq]
      refine List.mem_map.2 ⟨{ Person := p, Address := a }, ?_, rfl⟩
      unfold allResidents
      exact List.mem_flatMap.2 ⟨a, ha, List.mem_map.2 ⟨p, hp, rfl⟩⟩
    exact ⟨hmem, mapIndex_of_mem _ _ _ (nodup_createResidentMap addresses) hmem⟩

/-- Witness of C13: a1 and a2 at address A, b1 at address B. -/
theorem C13_index_one_entry_per_person_witness :
    ((allPersons [addressA, addressB]).map (fun p => p.Id)).Nodup ∧
    createResidentMap [addressA, addressB]
      = [("a1", ⟨personA1, addressA⟩), ("a2", ⟨personA2, addressA⟩),
         ("b1", ⟨personB1, addressB⟩)] ∧
    (createResidentMap [addressA, addressB]).length = (allPersons [addressA, addressB]).length :=
  ⟨by decide,
    ((C13_index_one_entry_per_person [addressA, addressB]).2.2.2 (by decide)).1,
    ((C13_index_one_entry_per_person [addressA, addressB]).2.2.2 (by decide)).2.1⟩

/-- C14: a key of 0 loses its value.  On the one-entry index of a1 with the key
0 drawn, `randomSequenceFromMapValues` returns the zero resident, which is not a
permutation of the values; on the index of a1 and b1 with the keys 0 and 1 it
returns b1 followed by the zero resident. -/
theorem C14_zero_key_loses_value :
    randomSequenceFromMapValues (createResidentMap [addressA1]) (fun _ => 0) = [default] ∧
    ¬ (randomSequenceFromMapValues (createResidentMap [addressA1]) (fun _ => 0)).Perm
      (mapValues (createResidentMap [addressA1])) ∧
    randomSequenceFromMapValues (createResidentMap [addressA1, addressB]) (fun i => i)
      = [⟨personB1, addressB⟩, default] := by
  refine ⟨by decide, ?_, by decide⟩
  intro h
  have hmem : (default : Resident) ∈ mapValues (createResidentMap [addressA1]) :=
    h.subset (by decide)
  exact absurd hmem (by decide)

/-- C15: over a resident index built by `createResidentMap`, when the giver order
and the candidate orders are permutations of the maps they shuffle and the
attempt returns without error, the givers and the receivers of the returned
sequence are each a permutation of the residents, no receiver id occurs twice,
every resident id is the `To` id of exactly one assignment, and no assignment
has the same `From` and `To` id: giver id to receiver id is a derangement of the
resident ids. -/
theorem C15_receivers_form_derangement (allow : Bool) (addresses : List Address)
    (shuffle : Shuffler) (assignments : List SecretSantaAssignment)
    (hperm : ∀ k m, (shuffle k m).Perm (mapValues m))
    (hok : attemptSecretSantaAssignments allow (createResidentMap addresses) shuffle
      = .ok assignments) :
    (assignments.map (fun a => a.From)).Perm (mapValues (createResidentMap addresses)) ∧
    (assignments.map (fun a => a.To)).Perm (mapValues (createResidentMap addresses)) ∧
    (assignments.map (fun a => a.From.Person.Id)).Nodup ∧
    (assignments.map (fun a => a.To.Person.Id)).Nodup ∧
    (∀ id ∈ mapKeys (createResidentMap addresses),
      (assignments.map (fun a => a.To.Person.Id)).count id = 1) ∧
    (∀ a ∈ assignments, a.From.Person.Id ≠ a.To.Person.Id) := by
  have hn := nodup_createResidentMap addresses
  have hk := keyedById_createResidentMap addresses
  have hids : (mapValues (createResidentMap addresses)).map (fun r => r.Person.Id)
      = mapKeys (createResidentMap addresses) := by
    simp only [mapValues, mapKeys, List.map_map]
    exact List.map_congr_left (fun e he => hk e he)
  have hfrom : (assignments.map (fun a => a.From)).Perm
      (mapValues (createResidentMap addresses)) := by
    rw [attempt_froms allow _ shuffle assignments hn (hperm 0 _) hok]
    exact hperm 0 _
  obtain ⟨hto, htond⟩ := attempt_tos_perm allow _ shuffle assignments hn hk hperm hok
  have hfromids : (assignments.map (fun a => a.From.Person.Id)).Perm
      (mapKeys (createResidentMap addresses)) := by
    have := hfrom.map (fun r => r.Person.Id)
    rwa [List.map_map, hids] at this
  have htoids : (assignments.map (fun a => a.To.Person.Id)).Perm
      (mapKeys (createResidentMap addresses)) := by
    have := hto.map (fun r => r.Person.Id)
    rwa [List.map_map, hids] at this
  refine ⟨hfrom, hto, hfromids.nodup_iff.2 hn, htond, ?_, ?_⟩
  · intro id hid
    rw [htoids.count_eq]
    exact List.count_eq_one_of_mem hn hid
  · intro a ha
    exact (attempt_ids_ne allow _ shuffle assignments hok a ha).1

/-- Witness of C15: a1 and b1 at two addresses, shuffles in listed order. -/
theorem C15_receivers_form_derangement_witness :
    attemptSecretSantaAssignments false (createResidentMap [addressA1, addressB]) listedOrder
      = .ok pairedA1B1 ∧
    (pairedA1B1.map (fun a => a.From)).Perm (mapValues (createResidentMap [addressA1, addressB])) ∧
    (pairedA1B1.map (fun a => a.To)).Perm (mapValues (createResidentMap [addressA1, addressB])) ∧
    (pairedA1B1.map (fun a => a.From.Person.Id)).Nodup ∧
    (pairedA1B1.map (fun a => a.To.Person.Id)).Nodup ∧
    (∀ id ∈ mapKeys (createResidentMap [addressA1, addressB]),
      (pairedA1B1.map (fun a => a.To.Person.Id)).count id = 1) ∧
    (∀ a ∈ pairedA1B1, a.From.Person.Id ≠ a.To.Person.Id) :=
  ⟨attempt_pairedA1B1 false,
    C15_receivers_form_derangement false [addressA1, addressB] listedOrder pairedA1B1
      listedOrder_perm (attempt_pairedA1B1 false)⟩

/-- C16: in `attemptSecretSantaAssignments`, for every index, every giver order
and every candidate order, the loop over the candidates of a giver stops at the
first candidate of the order that is not the giver, is still a key of the
working copy and does not share the street address of the giver when the flag
is false; the assignment it appends has that giver as `From` and that candidate
as `To`; the entries of that candidate id and no others are deleted from the
working copy.  The assignments of a successful attempt are, in order, the pairs
so served for a prefix of the giver order, which ends where the givers or the
working copy are used up.  The attempt returns an error, hence no assignments,
exactly when, after the givers before it have been served, some giver meets a
non-empty working copy in which it has no such candidate.  When the keys of the
index are distinct and the giver order has as many elements as the index, as
every result of `randomSequenceFromMapValues` has, the working copy is non-empty
at every giver, and the attempt returns an error exactly when, after the givers
before it have been served, some giver has no such candidate. -/
theorem C16_first_surviving_candidate (allow : Bool) (residents : GoMap)
    (shuffle : Shuffler) :
    (∀ (f : Resident) (copy : GoMap) (acc : List SecretSantaAssignment)
        (cands : List Resident),
      recipientLoop allow residents f copy acc cands
        = (firstSurvivor allow copy f cands).map
            (fun t => (mapDelete copy t.Person.Id, acc ++ [makeAssignment residents f t]))) ∧
    (∀ (f t : Resident),
      (makeAssignment residents f t).From = f ∧ (makeAssignment residents f t).To = t) ∧
    (∀ (f : Resident) (copy : GoMap) (cands : List Resident) (t : Resident),
      firstSurvivor allow copy f cands = some t ↔
        (f.Person.Id ≠ t.Person.Id ∧ mapContains copy t.Person.Id = true ∧
          (allow = false → f.Address.Address ≠ t.Address.Address)) ∧
        ∃ pre post, cands = pre ++ t :: post ∧
          ∀ x ∈ pre, f.Person.Id = x.Person.Id ∨ mapContains copy x.Person.Id = false ∨
            (allow = false ∧ f.Address.Address = x.Address.Address)) ∧
    (∀ (f : Resident) (copy : GoMap) (cands : List Resident),
      firstSurvivor allow copy f cands = none ↔
        ∀ x ∈ cands, f.Person.Id = x.Person.Id ∨ mapContains copy x.Person.Id = false ∨
          (allow = false ∧ f.Address.Address = x.Address.Address)) ∧
    (∀ (copy : GoMap) (t : Resident) (e : String × Resident),
      e ∈ mapDelete copy t.Person.Id ↔ e ∈ copy ∧ e.1 ≠ t.Person.Id) ∧
    (∀ assignments,
      attemptSecretSantaAssignments allow residents shuffle = .ok assignments →
      ∃ (pairs : List (Resident × Resident)) (rest : List Resident),
        shuffle 0 residents = pairs.map Prod.fst ++ rest ∧
        Served allow shuffle 0 residents pairs ∧
        assignments.map (fun a => (a.From, a.To)) = pairs ∧
        (rest = [] ∨ workingCopyAfter residents (pairs.map Prod.snd) = [])) ∧
    (∀ e,
      attemptSecretSantaAssignments allow residents shuffle = .error e ↔
        e = "Unable to find a pairing" ∧
        ∃ (pairs : List (Resident × Resident)) (g : Resident) (rest : List Resident),
          shuffle 0 residents = pairs.map Prod.fst ++ g :: rest ∧
          Served allow shuffle 0 residents pairs ∧
          workingCopyAfter residents (pairs.map Prod.snd) ≠ [] ∧
          firstSurvivor allow (workingCopyAfter residents (pairs.map Prod.snd)) g
            (shuffle (pairs.length + 1) (workingCopyAfter residents (pairs.map Prod.snd)))
            = none) ∧
    ((mapKeys residents).Nodup → (shuffle 0 residents).length = residents.length →
      ∀ e,
        attemptSecretSantaAssignments allow residents shuffle = .error e ↔
          e = "Unable to find a pairing" ∧
          ∃ (pairs : List (Resident × Resident)) (g : Resident) (rest : List Resident),
            shuffle 0 residents = pairs.map Prod.fst ++ g :: rest ∧
            Served allow shuffle 0 residents pairs ∧
            firstSurvivor allow (workingCopyAfter residents (pairs.map Prod.snd)) g
              (shuffle (pairs.length + 1)
                (workingCopyAfter residents (pairs.map Prod.snd)))
              = none) := by
  have hatt : attemptSecretSantaAssignments allow residents shuffle
      = giverLoop allow residents shuffle (shuffle 0 residents) 0 residents [] := rfl
  have herror : ∀ e,
      attemptSecretSantaAssignments allow residents shuffle = .error e ↔
        e = "Unable to find a pairing" ∧
        ∃ (pairs : List (Resident × Resident)) (g : Resident) (rest : List Resident),
          shuffle 0 residents = pairs.map Prod.fst ++ g :: rest ∧
          Served allow shuffle 0 residents pairs ∧
          workingCopyAfter residents (pairs.map Prod.snd) ≠ [] ∧
          firstSurvivor allow (workingCopyAfter residents (pairs.map Prod.snd)) g
            (shuffle (pairs.length + 1) (workingCopyAfter residents (pairs.map Prod.snd)))
            = none := by
    intro e
    constructor
    · intro herr
      obtain ⟨pairs, rest, hg, hserved, hres⟩ :=
        giverLoop_trace allow residents shuffle (shuffle 0 residents) 0 residents []
      rw [hatt] at herr
      rcases hres with ⟨hr, _⟩ | ⟨hr, hne, g, tail, hrest, hstuck⟩
      · rw [hr] at herr
        cases herr
      · rw [hr] at herr
        refine ⟨(Except.error.inj herr).symm, pairs, g, tail, by rw [hg, hrest], hserved,
          hne, ?_⟩
        rw [Nat.zero_add] at hstuck
        exact hstuck
    · rintro ⟨rfl, pairs, g, rest, hsplit, hserved, hne, hstuck⟩
      rw [hatt, hsplit, giverLoop_served allow _ shuffle pairs (g :: rest) 0 _ [] hserved]
      apply giverLoop_stuck allow _ shuffle g rest _ _ _ hne
      rw [Nat.zero_add]
      exact hstuck
  refine ⟨fun f copy acc cands =>
      recipientLoop_eq_firstSurvivor allow residents f copy acc cands,
    fun f t => ⟨makeAssignment_From residents f t, makeAssignment_To residents f t⟩, ?_, ?_,
    fun copy t e => mem_mapDelete copy t.Person.Id e, ?_, herror, ?_⟩
  · intro f copy cands t
    unfold firstSurvivor
    rw [List.find?_eq_some, survives_iff]
    constructor
    · rintro ⟨hs, pre, post, hc, hpre⟩
      refine ⟨hs, pre, post, hc, fun x hx => ?_⟩
      apply (survives_false_iff allow copy f x).1
      simpa using hpre x hx
    · rintro ⟨hs, pre, post, hc, hpre⟩
      refine ⟨hs, pre, post, hc, fun x hx => ?_⟩
      rw [(survives_false_iff allow copy f x).2 (hpre x hx)]
      rfl
  · intro f copy cands
    unfold firstSurvivor
    rw [List.find?_eq_none]
    constructor
    · intro h x hx
      apply (survives_false_iff allow copy f x).1
      simpa using h x hx
    · intro h x hx
      rw [(survives_false_iff allow copy f x).2 (h x hx)]
      simp
  · intro assignments hok
    obtain ⟨pairs, rest, hg, hserved, hres⟩ :=
      giverLoop_trace allow residents shuffle (shuffle 0 residents) 0 residents []
    rw [hatt] at hok
    rcases hres with ⟨hr, hend⟩ | ⟨hr, _, _⟩
    · rw [hr] at hok
      have has : assignments
          = pairs.map (fun p => makeAssignment residents p.1 p.2) := by
        simpa using (Except.ok.inj hok).symm
      refine ⟨pairs, rest, hg, hserved, ?_, hend⟩
      rw [has, List.map_map]
      conv_rhs => rw [← List.map_id pairs]
      exact List.map_congr_left (fun p _ => by
        show ((makeAssignment residents p.1 p.2).From, (makeAssignment residents p.1 p.2).To)
          = p
        rw [makeAssignment_From, makeAssignment_To])
    · rw [hr] at hok
      cases hok
  · intro hn hlen e
    rw [herror e]
    constructor
    · rintro ⟨he, pairs, g, rest, hsplit, hserved, _, hstuck⟩
      exact ⟨he, pairs, g, rest, hsplit, hserved, hstuck⟩
    · rintro ⟨he, pairs, g, rest, hsplit, hserved, hstuck⟩
      refine ⟨he, pairs, g, rest, hsplit, hserved, fun hnil => ?_, hstuck⟩
      have h1 := served_length allow shuffle 0 residents pairs hn hserved
      have h2 : (shuffle 0 residents).length = pairs.length + (rest.length + 1) := by
        rw [hsplit, List.length_append, List.length_map, List.length_cons]
      rw [hnil, List.length_nil] at h1
      omega

/-- Witness of C16: a1, b1 and c1 at three addresses, shuffles in listed order;
a1 and b1 are served and c1 has no surviving candidate. -/
theorem C16_first_surviving_candidate_witness :
    attemptSecretSantaAssignments true (createResidentMap [addressA1, addressB, addressC])
      listedOrder = .error "Unable to find a pairing" ∧
    ∃ (pairs : List (Resident × Resident)) (g : Resident) (rest : List Resident),
      listedOrder 0 (createResidentMap [addressA1, addressB, addressC])
        = pairs.map Prod.fst ++ g :: rest ∧
      Served true listedOrder 0 (createResidentMap [addressA1, addressB, addressC]) pairs ∧
      workingCopyAfter (createResidentMap [addressA1, addressB, addressC])
        (pairs.map Prod.snd) ≠ [] ∧
      firstSurvivor true
        (workingCopyAfter (createResidentMap [addressA1, addressB, addressC])
          (pairs.map Prod.snd)) g
        (listedOrder (pairs.length + 1)
          (workingCopyAfter (createResidentMap [addressA1, addressB, addressC])
            (pairs.map Prod.snd)))
        = none :=
  ⟨rfl,
    (((C16_first_surviving_candidate true (createResidentMap [addressA1, addressB, addressC])
      listedOrder).2.2.2.2.2.2.1 "Unable to find a pairing").1 rfl).2⟩

/-- C17: over the index built by `createResidentMap`, with a giver order that is
a permutation of the residents, once the givers of `pairs` have been served the
loop continues with the remaining givers from call number `pairs.length` and the
working copy `workingCopyAfter`: it holds the residents whose id is not yet
recorded as a receiver, as many as there are residents less the givers served;
it is not empty while a giver remains, and it is empty when none remains, the
attempt then returning the assignments of `pairs`.  The working copy is empty
after the receivers of any successful attempt have been deleted. -/
theorem C17_working_copy_size (allow : Bool) (addresses : List Address) (shuffle : Shuffler)
    (pairs : List (Resident × Resident)) (rest : List Resident)
    (hperm : (shuffle 0 (createResidentMap addresses)).Perm
      (mapValues (createResidentMap addresses)))
    (hsplit : shuffle 0 (createResidentMap addresses) = pairs.map Prod.fst ++ rest)
    (hserved : Served allow shuffle 0 (createResidentMap addresses) pairs) :
    attemptSecretSantaAssignments allow (createResidentMap addresses) shuffle
      = giverLoop allow (createResidentMap addresses) shuffle rest pairs.length
          (workingCopyAfter (createResidentMap addresses) (pairs.map Prod.snd))
          (pairs.map (fun p => makeAssignment (createResidentMap addresses) p.1 p.2)) ∧
    (workingCopyAfter (createResidentMap addresses) (pairs.map Prod.snd)).length + pairs.length
      = (createResidentMap addresses).length ∧
    workingCopyAfter (createResidentMap addresses) (pairs.map Prod.snd)
      = (createResidentMap addresses).filter
          (fun e => decide (e.1 ∉ pairs.map (fun p => p.2.Person.Id))) ∧
    (rest ≠ [] → workingCopyAfter (createResidentMap addresses) (pairs.map Prod.snd) ≠ []) ∧
    (rest = [] →
      workingCopyAfter (createResidentMap addresses) (pairs.map Prod.snd) = [] ∧
      attemptSecretSantaAssignments allow (createResidentMap addresses) shuffle
        = .ok (pairs.map (fun p => makeAssignment (createResidentMap addresses) p.1 p.2))) ∧
    (∀ assignments,
      attemptSecretSantaAssignments allow (createResidentMap addresses) shuffle
        = .ok assignments →
      workingCopyAfter (createResidentMap addresses) (assignments.map (fun a => a.To)) = []) := by
  have hn := nodup_createResidentMap addresses
  have hatt : attemptSecretSantaAssignments allow (createResidentMap addresses) shuffle
      = giverLoop allow (createResidentMap addresses) shuffle
          (shuffle 0 (createResidentMap addresses)) 0 (createResidentMap addresses) [] := rfl
  have hstate : attemptSecretSantaAssignments allow (createResidentMap addresses) shuffle
      = giverLoop allow (createResidentMap addresses) shuffle rest pairs.length
          (workingCopyAfter (createResidentMap addresses) (pairs.map Prod.snd))
          (pairs.map (fun p => makeAssignment (createResidentMap addresses) p.1 p.2)) := by
    rw [hatt, hsplit, giverLoop_served allow _ shuffle pairs rest 0 _ [] hserved,
      Nat.zero_add, List.nil_append]
  have hlen := served_length allow shuffle 0 _ pairs hn hserved
  have hgivers : pairs.length + rest.length = (createResidentMap addresses).length := by
    have h2 := hperm.length_eq
    rw [hsplit] at h2
    simpa [mapValues] using h2
  have hempty : ∀ (ps : List (Resident × Resident)),
      Served allow shuffle 0 (createResidentMap addresses) ps →
      ps.length = (createResidentMap addresses).length →
      workingCopyAfter (createResidentMap addresses) (ps.map Prod.snd) = [] := by
    intro ps hs hl
    have h1 := served_length allow shuffle 0 _ ps hn hs
    exact List.length_eq_zero.1 (by omega)
  refine ⟨hstate, hlen, ?_, ?_, ?_, ?_⟩
  · rw [workingCopyAfter_eq_filter, List.map_map]
    rfl
  · intro hrest h0
    have hpos : 0 < rest.length := List.length_pos.2 hrest
    rw [h0] at hlen
    simp only [List.length_nil] at hlen
    omega
  · intro hrest
    refine ⟨hempty pairs hserved (by rw [hrest] at hgivers; simpa using hgivers), ?_⟩
    rw [hstate, hrest]
    rfl
  · intro assignments hok
    obtain ⟨ps, tail, hg, hs, hres⟩ :=
      giverLoop_trace allow (createResidentMap addresses) shuffle
        (shuffle 0 (createResidentMap addresses)) 0 (createResidentMap addresses) []
    rw [hatt] at hok
    rcases hres with ⟨hr, hend⟩ | ⟨hr, _, _⟩
    · rw [hr] at hok
      have has : assignments
          = ps.map (fun p => makeAssignment (createResidentMap addresses) p.1 p.2) := by
        simpa using (Except.ok.inj hok).symm
      have hto : assignments.map (fun a => a.To) = ps.map Prod.snd := by
        rw [has, List.map_map]
        exact List.map_congr_left (fun p _ => makeAssignment_To _ p.1 p.2)
      rw [hto]
      rcases hend with htail | hcopy
      · apply hempty ps hs
        have h2 := hperm.length_eq
        rw [hg, htail] at h2
        simpa [mapValues] using h2
      · exact hcopy
    · rw [hr] at hok
      cases hok

/-- Witness of C17: a1 and b1 at two addresses, shuffles in listed order, after
a1 has been served with b1: the working copy holds a1 alone. -/
theorem C17_working_copy_size_witness :
    ((listedOrder 0 (createResidentMap [addressA1, addressB])).Perm
        (mapValues (createResidentMap [addressA1, addressB])) ∧
      listedOrder 0 (createResidentMap [addressA1, addressB])
        = [((⟨personA1, addressA1⟩ : Resident), (⟨personB1, addressB⟩ : Resident))].map Prod.fst
          ++ [⟨personB1, addressB⟩] ∧
      Served false listedOrder 0 (createResidentMap [addressA1, addressB])
        [(⟨personA1, addressA1⟩, ⟨personB1, addressB⟩)]) ∧
    (workingCopyAfter (createResidentMap [addressA1, addressB])
        ([((⟨personA1, addressA1⟩ : Resident), (⟨personB1, addressB⟩ : Resident))].map
          Prod.snd)).length + 1 = 2 ∧
    workingCopyAfter (createResidentMap [addressA1, addressB])
        ([((⟨personA1, addressA1⟩ : Resident), (⟨personB1, addressB⟩ : Resident))].map Prod.snd)
      ≠ [] :=
  ⟨⟨listedOrder_perm 0 _, rfl, ⟨by decide, rfl, trivial⟩⟩,
    (C17_working_copy_size false [addressA1, addressB] listedOrder
      [(⟨personA1, addressA1⟩, ⟨personB1, addressB⟩)] [⟨personB1, addressB⟩]
      (listedOrder_perm 0 _) rfl ⟨by decide, rfl, trivial⟩).2.1,
    (C17_working_copy_size false [addressA1, addressB] listedOrder
      [(⟨personA1, addressA1⟩, ⟨personB1, addressB⟩)] [⟨personB1, addressB⟩]
      (listedOrder_perm 0 _) rfl ⟨by decide, rfl, trivial⟩).2.2.2.1 (by decide)⟩

/-- C18: for a dataset without residents (no addresses, or addresses whose
`Residents` are all empty) the resident index is empty, every attempt returns
the empty sequence without error whatever the shuffles return, and
`generateSecretSantaAssignments` returns the result of its first attempt, the
empty sequence and no error, for either value of the flag. -/
theorem C18_empty_dataset_succeeds (allow : Bool) (addresses : List Address)
    (shuffles : Nat → Shuffler)
    (hempty : ∀ a ∈ addresses, a.Residents = []) :
    createResidentMap addresses = [] ∧
    (∀ shuffle : Shuffler,
      attemptSecretSantaAssignments allow (createResidentMap addresses) shuffle = .ok []) ∧
    generateSecretSantaAssignments allow addresses shuffles
      = attemptSecretSantaAssignments allow (createResidentMap addresses) (shuffles 0) ∧
    generateSecretSantaAssignments allow addresses shuffles = .ok [] := by
  have hmap := createResidentMap_of_no_residents addresses hempty
  have hatt : ∀ shuffle : Shuffler,
      attemptSecretSantaAssignments allow (createResidentMap addresses) shuffle = .ok [] := by
    intro shuffle
    rw [hmap]
    exact attempt_of_empty allow shuffle
  have hgen : generateSecretSantaAssignments allow addresses shuffles = .ok [] :=
    generateLoop_first_ok allow (createResidentMap addresses) shuffles 1000 0 0 [] rfl
      (Nat.le_refl _) (by decide) (hatt (shuffles 0))
      (fun j _ hj => absurd hj (Nat.not_lt_zero j))
  exact ⟨hmap, hatt, by rw [hgen, hatt], hgen⟩

/-- Witness of C18: one address without residents. -/
theorem C18_empty_dataset_succeeds_witness :
    (∀ a ∈ [addressEmpty], a.Residents = []) ∧
    generateSecretSantaAssignments false [addressEmpty] (fun (_ : Nat) => listedOrder) = .ok [] :=
  ⟨by decide,
    (C18_empty_dataset_succeeds false [addressEmpty] (fun (_ : Nat) => listedOrder)
      (by decide)).2.2.2⟩

/-- C19: the same-residence rule compares the street-address string only, and
with the flag false no returned assignment has a giver and a receiver with the
same street-address string.  Yet a dataset of two residents sharing the street
string does not make every attempt fail.  For a1 at 1 Ash Road in Alba and a2
at 1 Ash Road in Bray, with orders that are permutations of the maps they
shuffle every attempt fails and the exhaustion error is returned; but when
`rand.Int` returns 0 for every key of the giver shuffle the giver order is made
of two zero residents (a key of 0 loses its value, see C14), whose empty street
address differs from 1 Ash Road: the attempt returns two assignments given by
the zero resident and `generateSecretSantaAssignments` returns them without
error. -/
theorem C19_zero_keys_defeat_street_rule :
    (addressA1 ≠ addressAshBray ∧ addressA1.Address = addressAshBray.Address) ∧
    validateData [addressA1, addressAshBray] = .ok () ∧
    (∀ (residents : GoMap) (shuffle : Shuffler) (assignments : List SecretSantaAssignment),
      attemptSecretSantaAssignments false residents shuffle = .ok assignments →
      ∀ a ∈ assignments, a.From.Address.Address ≠ a.To.Address.Address) ∧
    (∀ shuffles : Nat → Shuffler, (∀ i k m, (shuffles i k m).Perm (mapValues m)) →
      (∀ i, attemptSecretSantaAssignments false
          (createResidentMap [addressA1, addressAshBray]) (shuffles i)
        = .error "Unable to find a pairing") ∧
      generateSecretSantaAssignments false [addressA1, addressAshBray] shuffles
        = .error "Could not assign secret santas..") ∧
    randomSequenceFromMapValues (createResidentMap [addressA1, addressAshBray])
        (zeroGiverKeys 0 (createResidentMap [addressA1, addressAshBray]))
      = [default, default] ∧
    attemptSecretSantaAssignments false (createResidentMap [addressA1, addressAshBray])
        (fun k m => randomSequenceFromMapValues m (zeroGiverKeys k m))
      = .ok [ { From := default, To := ⟨personA1, addressA1⟩, Actor := default },
              { From := default, To := ⟨personA2, addressAshBray⟩, Actor := default } ] ∧
    generateSecretSantaAssignments false [addressA1, addressAshBray]
        (fun _ k m => randomSequenceFromMapValues m (zeroGiverKeys k m))
      = .ok [ { From := default, To := ⟨personA1, addressA1⟩, Actor := default },
              { From := default, To := ⟨personA2, addressAshBray⟩, Actor := default } ] := by
  have hatt : attemptSecretSantaAssignments false
        (createResidentMap [addressA1, addressAshBray])
        (fun k m => randomSequenceFromMapValues m (zeroGiverKeys k m))
      = .ok [ { From := default, To := ⟨personA1, addressA1⟩, Actor := default },
              { From := default, To := ⟨personA2, addressAshBray⟩, Actor := default } ] :=
    attempt_zero_givers false [addressA1, addressAshBray] rfl
  refine ⟨by decide, rfl, ?_, ?_, ?_, hatt, ?_⟩
  · intro residents shuffle assignments hok a ha
    exact (attempt_ids_ne false residents shuffle assignments hok a ha).2 rfl
  · intro shuffles hperm
    have h := same_street_string_blocks [addressA1, addressAshBray] shuffles "1 Ash Road"
      (by decide) (by decide) hperm
    exact ⟨h.2.1, h.2.2⟩
  · exact zeroGiverShuffle_zero _
  · exact generateLoop_first_ok false (createResidentMap [addressA1, addressAshBray])
      (fun _ => zeroGiverShuffle) 1000 0 0 _ rfl (Nat.le_refl _) (by decide) hatt
      (fun j _ hj => absurd hj (Nat.not_lt_zero j))

end SecretSanta
